import Mathlib

set_option linter.unusedVariables false

/-!
Verification of the fluent-bit output dispatch core against its design
specification.

The development shallowly embeds the covered C sources:

* `src/flb_mp.c` — the incremental msgpack map/array header builder
  (`flb_mp_map_header_init` / `append` / `end` and the array variants,
  `flb_mp_set_map_header_size`, `flb_mp_set_array_header_size`) and the
  accessor-driven key-removal engine (`flb_mp_accessor_keys_remove`,
  `accessor_sub_pack`, `accessor_key_find_match`).
* `include/fluent-bit/flb_output.h` — the flush completion protocol
  (`flb_output_return`) and the flush-context teardown helpers
  (`flb_output_coro_get`, `flb_output_coro_destroy_id`,
  `cb_output_coro_destroy`).

msgpack buffers are byte lists (`List Nat`, each entry `< 256` where it
matters); an `msgpack_sbuffer` is passed and returned explicitly.  C pointers
into a decoded `msgpack_object` tree are modelled as paths from the root
(`MpPath`): two subobjects of one decoded record are the same C pointer
exactly when they have the same path.  Record-accessor pattern matching
(`flb_ra_get_kv_pair`, from `flb_record_accessor.c`, which is outside the
covered sources) is modelled from the spec, as are the few constants and
macros (`FLB_TASK_SET`, `FLB_BITS_U64_SET`, the disposition codes and
`flb_metrics_sum`) whose defining headers are outside the covered sources;
each such definition is marked `Modelled from the spec.`
-/

namespace FlbMp

/-! ### Byte-level helpers (msgpack-c stores) -/

/-- Embeds msgpack-c `_msgpack_store16` (`pack_uint16`): big-endian store of
the value truncated to 16 bits. -/
def be16 (n : Nat) : List Nat :=
  [n / 2 ^ 8 % 2 ^ 8, n % 2 ^ 8]

/-- Embeds msgpack-c `_msgpack_store32` (`pack_uint32`): big-endian store of
the value truncated to 32 bits. -/
def be32 (n : Nat) : List Nat :=
  [n / 2 ^ 24 % 2 ^ 8, n / 2 ^ 16 % 2 ^ 8, n / 2 ^ 8 % 2 ^ 8, n % 2 ^ 8]

/-- Embeds msgpack-c `_msgpack_store64`: big-endian store of the value
truncated to 64 bits. -/
def be64 (n : Nat) : List Nat :=
  [n / 2 ^ 56 % 2 ^ 8, n / 2 ^ 48 % 2 ^ 8, n / 2 ^ 40 % 2 ^ 8,
   n / 2 ^ 32 % 2 ^ 8, n / 2 ^ 24 % 2 ^ 8, n / 2 ^ 16 % 2 ^ 8,
   n / 2 ^ 8 % 2 ^ 8, n % 2 ^ 8]

/-- Value a big-endian reader recovers from a byte list. -/
def rdBE (bs : List Nat) : Nat :=
  bs.foldl (fun a b => a * 2 ^ 8 + b) 0

/-- Read `n` bytes off the front of a buffer. -/
def readN : Nat → List Nat → Option (List Nat × List Nat)
  | 0, bs => some ([], bs)
  | _ + 1, [] => none
  | n + 1, b :: bs =>
    match readN n bs with
    | none => none
    | some (xs, r) => some (b :: xs, r)

/-- Overwrite bytes of a buffer in place, starting at a byte offset.  This is
how the header finalisers patch an already-emitted header. -/
def writeBytes (buf : List Nat) (off : Nat) : List Nat → List Nat
  | [] => buf
  | b :: bs => writeBytes (buf.set off b) (off + 1) bs

/-! ### The incremental map/array header builder (`flb_mp.c`) -/

/-- Bytes emitted by msgpack-c `msgpack_pack_map n`: fixmap for `n < 16`,
`0xde` map16 for `n < 2^16`, `0xdf` map32 otherwise. -/
def msgpackPackMapBytes (n : Nat) : List Nat :=
  if n < 2 ^ 4 then [0x80 + n]
  else if n < 2 ^ 16 then 0xde :: be16 n
  else 0xdf :: be32 n

/-- Bytes emitted by msgpack-c `msgpack_pack_array n`: fixarray for `n < 16`,
`0xdc` array16 for `n < 2^16`, `0xdd` array32 otherwise. -/
def msgpackPackArrayBytes (n : Nat) : List Nat :=
  if n < 2 ^ 4 then [0x90 + n]
  else if n < 2 ^ 16 then 0xdc :: be16 n
  else 0xdd :: be32 n

/-- Embeds `struct flb_mp_map_header`: the byte offset of the pre-emitted
header inside the sbuffer and the running entry counter.  The `data` field
(the sbuffer pointer) is represented by threading the buffer explicitly. -/
structure MapHeaderCtx where
  offset : Nat
  entries : Nat
  deriving Repr, DecidableEq

/-- Embeds `flb_mp_map_header_init`: records the next free offset, resets the
counter, and packs a map of size 65536 so that msgpack-c emits the widest
(`0xdf`, 32-bit length) header form. -/
def flb_mp_map_header_init (buf : List Nat) : MapHeaderCtx × List Nat :=
  (⟨buf.length, 0⟩, buf ++ msgpackPackMapBytes 65536)

/-- Embeds `flb_mp_array_header_init`: same as the map variant with the
array header family (`0xdd`). -/
def flb_mp_array_header_init (buf : List Nat) : MapHeaderCtx × List Nat :=
  (⟨buf.length, 0⟩, buf ++ msgpackPackArrayBytes 65536)

/-- Embeds `flb_mp_map_header_append`: increment the entry counter. -/
def flb_mp_map_header_append (mh : MapHeaderCtx) : MapHeaderCtx :=
  ⟨mh.offset, mh.entries + 1⟩

/-- Embeds `flb_mp_array_header_append`: increment the entry counter. -/
def flb_mp_array_header_append (mh : MapHeaderCtx) : MapHeaderCtx :=
  ⟨mh.offset, mh.entries + 1⟩

/-- Embeds `flb_mp_set_map_header_size`: inspect the header byte at `off` and
store the size in the encoding that byte announces.  The fixmap branch ORs
the low byte of the size into the tag byte, exactly as the C does. -/
def flb_mp_set_map_header_size (buf : List Nat) (off : Nat) (size : Nat) :
    List Nat :=
  let h := buf.getD off 0
  if h / 2 ^ 4 = 0x8 then buf.set off (Nat.lor (0x8 * 2 ^ 4) (size % 2 ^ 8))
  else if h = 0xde then writeBytes buf (off + 1) (be16 size)
  else if h = 0xdf then writeBytes buf (off + 1) (be32 size)
  else buf

/-- Embeds `flb_mp_set_array_header_size`. -/
def flb_mp_set_array_header_size (buf : List Nat) (off : Nat) (size : Nat) :
    List Nat :=
  let h := buf.getD off 0
  if h / 2 ^ 4 = 0x9 then buf.set off (Nat.lor (0x9 * 2 ^ 4) (size % 2 ^ 8))
  else if h = 0xdc then writeBytes buf (off + 1) (be16 size)
  else if h = 0xdd then writeBytes buf (off + 1) (be32 size)
  else buf

/-- Embeds `flb_mp_map_header_end`: patch the recorded header offset with the
final entry counter. -/
def flb_mp_map_header_end (mh : MapHeaderCtx) (buf : List Nat) : List Nat :=
  flb_mp_set_map_header_size buf mh.offset mh.entries

/-- Embeds `flb_mp_array_header_end`. -/
def flb_mp_array_header_end (mh : MapHeaderCtx) (buf : List Nat) : List Nat :=
  flb_mp_set_array_header_size buf mh.offset mh.entries

/-- N successive calls to `flb_mp_map_header_append`. -/
def mapHeaderAppendN (n : Nat) (mh : MapHeaderCtx) : MapHeaderCtx :=
  match n with
  | 0 => mh
  | k + 1 => flb_mp_map_header_append (mapHeaderAppendN k mh)

/-- N successive calls to `flb_mp_array_header_append`. -/
def arrayHeaderAppendN (n : Nat) (mh : MapHeaderCtx) : MapHeaderCtx :=
  match n with
  | 0 => mh
  | k + 1 => flb_mp_array_header_append (arrayHeaderAppendN k mh)

/-! ### Decoded msgpack records (`msgpack_object`)

`msgpack_object` is embedded as a mutual inductive so that every operation is
plain structural recursion (and therefore computes by `rfl` on concrete
records).  The embedding covers the object universe the covered code
manipulates: nil, booleans, unsigned integers, raw strings (byte lists),
arrays and maps. -/

mutual

inductive MPObject where
  | nil
  | bool (b : Bool)
  | uint (n : Nat)
  | str (s : List Nat)
  | arr (elems : MPList)
  | map (pairs : MPPairs)
  deriving Repr, DecidableEq

inductive MPList where
  | nil
  | cons (head : MPObject) (tail : MPList)
  deriving Repr, DecidableEq

inductive MPPairs where
  | nil
  | cons (key : MPObject) (val : MPObject) (tail : MPPairs)
  deriving Repr, DecidableEq

end

/-- Number of elements of an embedded `msgpack_object_array`. -/
def MPList.length : MPList → Nat
  | .nil => 0
  | .cons _ t => t.length + 1

/-- Number of key/value entries of an embedded `msgpack_object_map`
(`via.map.size` of a map object). -/
def MPPairs.length : MPPairs → Nat
  | .nil => 0
  | .cons _ _ t => t.length + 1

mutual

/-- Embeds `msgpack_pack_object`: the canonical (smallest-header) encoding
msgpack-c emits when packing a decoded object. -/
def packObj : MPObject → List Nat
  | .nil => [0xc0]
  | .bool false => [0xc2]
  | .bool true => [0xc3]
  | .uint n =>
    if n < 2 ^ 7 then [n]
    else if n < 2 ^ 8 then [0xcc, n]
    else if n < 2 ^ 16 then 0xcd :: be16 n
    else if n < 2 ^ 32 then 0xce :: be32 n
    else 0xcf :: be64 n
  | .str s =>
    (if s.length < 2 ^ 5 then [0xa0 + s.length]
     else if s.length < 2 ^ 8 then [0xd9, s.length]
     else if s.length < 2 ^ 16 then 0xda :: be16 s.length
     else 0xdb :: be32 s.length) ++ s
  | .arr es => msgpackPackArrayBytes es.length ++ packList es
  | .map ps => msgpackPackMapBytes ps.length ++ packPairs ps

/-- Canonical encoding of consecutive array elements. -/
def packList : MPList → List Nat
  | .nil => []
  | .cons e t => packObj e ++ packList t

/-- Canonical encoding of consecutive map entries (key then value). -/
def packPairs : MPPairs → List Nat
  | .nil => []
  | .cons k v t => packObj k ++ packObj v ++ packPairs t

end

mutual

/-- A record is 32-bit sized when every container size and string length fits
the 32-bit headers and every integer fits 64 bits — which is forced by the C
representation, where `via.map.size` and `via.array.size` are `uint32_t`. -/
def sized32 : MPObject → Bool
  | .nil => true
  | .bool _ => true
  | .uint n => n < 2 ^ 64
  | .str s => s.length < 2 ^ 32
  | .arr es => es.length < 2 ^ 32 && sized32L es
  | .map ps => ps.length < 2 ^ 32 && sized32P ps

/-- All elements are 32-bit sized. -/
def sized32L : MPList → Bool
  | .nil => true
  | .cons e t => sized32 e && sized32L t

/-- All keys and values are 32-bit sized. -/
def sized32P : MPPairs → Bool
  | .nil => true
  | .cons k v t => sized32 k && sized32 v && sized32P t

end

mutual

/-- Fuel needed by the decoder on (a sub-encoding of) this object. -/
def costObj : MPObject → Nat
  | .nil => 1
  | .bool _ => 1
  | .uint _ => 1
  | .str _ => 1
  | .arr es => costList es + 1
  | .map ps => costPairs ps + 1

/-- Fuel needed by the decoder on this element run. -/
def costList : MPList → Nat
  | .nil => 1
  | .cons e t => costObj e + costList t + 1

/-- Fuel needed by the decoder on this entry run. -/
def costPairs : MPPairs → Nat
  | .nil => 1
  | .cons k v t => costObj k + costObj v + costPairs t + 1

end

mutual

/-- A standard msgpack decoder over the embedded object universe.  `fuel`
only bounds the recursion depth (it decreases on every call); every supported
header family — canonical or widest-form — is read by count, so the decoder
observes exactly the element count each container header announces. -/
def decodeObj : Nat → List Nat → Option (MPObject × List Nat)
  | 0, _ => none
  | _ + 1, [] => none
  | fuel + 1, b :: bs =>
    if b < 0x80 then some (.uint b, bs)
    else if b < 0x90 then
      match decodePairs fuel (b - 0x80) bs with
      | none => none
      | some (ps, r) => some (.map ps, r)
    else if b < 0xa0 then
      match decodeList fuel (b - 0x90) bs with
      | none => none
      | some (es, r) => some (.arr es, r)
    else if b < 0xc0 then
      match readN (b - 0xa0) bs with
      | none => none
      | some (s, r) => some (.str s, r)
    else if b = 0xc0 then some (.nil, bs)
    else if b = 0xc2 then some (.bool false, bs)
    else if b = 0xc3 then some (.bool true, bs)
    else if b = 0xcc then
      match bs with
      | x :: r => some (.uint x, r)
      | [] => none
    else if b = 0xcd then
      match readN 2 bs with
      | none => none
      | some (xs, r) => some (.uint (rdBE xs), r)
    else if b = 0xce then
      match readN 4 bs with
      | none => none
      | some (xs, r) => some (.uint (rdBE xs), r)
    else if b = 0xcf then
      match readN 8 bs with
      | none => none
      | some (xs, r) => some (.uint (rdBE xs), r)
    else if b = 0xd9 then
      match bs with
      | n :: r =>
        match readN n r with
        | none => none
        | some (s, r2) => some (.str s, r2)
      | [] => none
    else if b = 0xda then
      match readN 2 bs with
      | none => none
      | some (xs, r) =>
        match readN (rdBE xs) r with
        | none => none
        | some (s, r2) => some (.str s, r2)
    else if b = 0xdb then
      match readN 4 bs with
      | none => none
      | some (xs, r) =>
        match readN (rdBE xs) r with
        | none => none
        | some (s, r2) => some (.str s, r2)
    else if b = 0xdc then
      match readN 2 bs with
      | none => none
      | some (xs, r) =>
        match decodeList fuel (rdBE xs) r with
        | none => none
        | some (es, r2) => some (.arr es, r2)
    else if b = 0xdd then
      match readN 4 bs with
      | none => none
      | some (xs, r) =>
        match decodeList fuel (rdBE xs) r with
        | none => none
        | some (es, r2) => some (.arr es, r2)
    else if b = 0xde then
      match readN 2 bs with
      | none => none
      | some (xs, r) =>
        match decodePairs fuel (rdBE xs) r with
        | none => none
        | some (ps, r2) => some (.map ps, r2)
    else if b = 0xdf then
      match readN 4 bs with
      | none => none
      | some (xs, r) =>
        match decodePairs fuel (rdBE xs) r with
        | none => none
        | some (ps, r2) => some (.map ps, r2)
    else none

/-- Decode exactly `n` consecutive array elements. -/
def decodeList : Nat → Nat → List Nat → Option (MPList × List Nat)
  | 0, _, _ => none
  | _ + 1, 0, bs => some (.nil, bs)
  | fuel + 1, n + 1, bs =>
    match decodeObj fuel bs with
    | none => none
    | some (e, r) =>
      match decodeList fuel n r with
      | none => none
      | some (t, r2) => some (.cons e t, r2)

/-- Decode exactly `n` consecutive key/value entries. -/
def decodePairs : Nat → Nat → List Nat → Option (MPPairs × List Nat)
  | 0, _, _ => none
  | _ + 1, 0, bs => some (.nil, bs)
  | fuel + 1, n + 1, bs =>
    match decodeObj fuel bs with
    | none => none
    | some (k, r) =>
      match decodeObj fuel r with
      | none => none
      | some (v, r2) =>
        match decodePairs fuel n r2 with
        | none => none
        | some (t, r3) => some (.cons k v t, r3)

end

/-- Decode one whole record: the buffer must hold exactly one object. -/
def flb_mp_decode (fuel : Nat) (bs : List Nat) : Option MPObject :=
  match decodeObj fuel bs with
  | some (o, []) => some o
  | _ => none

/-! ### The accessor-driven key-removal engine (`flb_mp.c`)

`flb_mp_accessor_keys_remove` works on C pointers into one decoded
`msgpack_object` tree.  A pointer is modelled as the path of the node from
the root: the key object of entry `i` of a map lives under `mkey i`, its
value under `mval i`, element `i` of an array under `aelt i`.  Distinct paths
are distinct C addresses and vice versa, so pointer equality is path
equality. -/

/-- One step of a pointer path into a decoded record. -/
inductive MpStep where
  | mkey (i : Nat)
  | mval (i : Nat)
  | aelt (i : Nat)
  deriving Repr, DecidableEq

/-- A pointer into a decoded record: the access path from the root.  The C
`NULL` pointer is `none : Option MpPath`. -/
abbrev MpPath := List MpStep

/-- Embeds `struct flb_mp_accessor_match`: the matched flag and the
`start_key` / `key` / `val` object pointers.  In a freshly created accessor
context the table is `calloc`-zeroed: flag clear, pointers `NULL`. -/
structure AccMatch where
  matched : Bool
  start_key : Option MpPath
  key : Option MpPath
  val : Option MpPath
  deriving Repr, DecidableEq

/-- A `calloc`-zeroed match slot. -/
def emptyMatch : AccMatch := ⟨false, none, none, none⟩

/-- One segment of a record-accessor pattern after the leading key: either a
nested key name or an array index. -/
inductive RASeg where
  | skey (name : List Nat)
  | sidx (n : Nat)
  deriving Repr, DecidableEq

/-- A compiled record-accessor pattern: the top-level key name followed by
the remaining segments.  Each segment matches only at its own depth. -/
structure RAPattern where
  first : List Nat
  rest : List RASeg
  deriving Repr, DecidableEq

/-- Is this object the string key with the given bytes? -/
def isStrKey (o : MPObject) (name : List Nat) : Bool :=
  match o with
  | .str s => s == name
  | _ => false

/-- Find the first entry of a map whose key is the string `name`; return its
index and value. -/
def mapFindKey (name : List Nat) (i : Nat) : MPPairs → Option (Nat × MPObject)
  | .nil => none
  | .cons k v t =>
    if isStrKey k name then some (i, v) else mapFindKey name (i + 1) t

/-- Element `n` of an embedded array. -/
def MPList.get? : MPList → Nat → Option MPObject
  | .nil, _ => none
  | .cons e _, 0 => some e
  | .cons _ t, n + 1 => t.get? n

/-- Modelled from the spec: the descent of `flb_ra_get_kv_pair`
(`flb_record_accessor.c` is not among the covered sources).  Per the spec, a
segment matches only at its own depth, a key segment selects the first map
entry with that string key, an index segment selects that array element, and
on success the innermost matched key and value pointers are returned.  A
pattern whose last segment is an index selects the array element itself as
both the innermost key and value pointer. -/
def raDescend (obj : MPObject) (p : MpPath) : List RASeg → Option (MpPath × MpPath)
  | [] => none
  | [.skey name] =>
    match obj with
    | .map ps =>
      match mapFindKey name 0 ps with
      | some (j, _) => some (p ++ [.mkey j], p ++ [.mval j])
      | none => none
    | _ => none
  | [.sidx n] =>
    match obj with
    | .arr es =>
      match es.get? n with
      | some _ => some (p ++ [.aelt n], p ++ [.aelt n])
      | none => none
    | _ => none
  | .skey name :: rest =>
    match obj with
    | .map ps =>
      match mapFindKey name 0 ps with
      | some (j, v) => raDescend v (p ++ [.mval j]) rest
      | none => none
    | _ => none
  | .sidx n :: rest =>
    match obj with
    | .arr es =>
      match es.get? n with
      | some e => raDescend e (p ++ [.aelt n]) rest
      | none => none
    | _ => none

/-- Modelled from the spec: `flb_ra_get_kv_pair` applies one pattern to a
record.  On a match it yields the anchor (the top-level key under which the
match began), the innermost matched key pointer and its value pointer; a
non-map record never matches. -/
def flb_ra_get_kv_pair (pat : RAPattern) (rec : MPObject) :
    Option (MpPath × MpPath × MpPath) :=
  match rec with
  | .map ps =>
    match mapFindKey pat.first 0 ps with
    | none => none
    | some (j, v) =>
      match pat.rest with
      | [] => some ([.mkey j], [.mkey j], [.mval j])
      | segs =>
        match raDescend v [.mval j] segs with
        | some (kp, vp) => some ([.mkey j], kp, vp)
        | none => none
  | _ => none

/-- The match-table fill loop at the top of `flb_mp_accessor_keys_remove`:
apply every rule in order; on a hit fill the slot, otherwise the slot keeps
its `calloc`-zeroed state (as in a freshly created context). -/
def buildMatches (pats : List RAPattern) (rec : MPObject) : List AccMatch :=
  pats.map fun pat =>
    match flb_ra_get_kv_pair pat rec with
    | some (s, k, v) => ⟨true, some s, some k, some v⟩
    | none => emptyMatch

/-- Embeds `accessor_key_find_match`: scan the table in rule order for the
first matched slot whose `start_key` pointer is this top-level key;
`none` is the C return of `-1`.  (The C returns the index and the caller
immediately dereferences the slot; we return the slot.) -/
def accessor_key_find_match (table : List AccMatch) (kp : MpPath) :
    Option AccMatch :=
  table.find? fun m => m.matched && m.start_key == some kp

/-- The C `via.map.size` read at the top of `flb_mp_accessor_keys_remove`.
The function performs no type check: for a map this is the entry count; for
an array the C11 common-initial-sequence rule makes the overlaid read yield
the element count; for scalar objects the union read is memory-layout
dependent and is not modelled (no theorem relies on the scalar branch). -/
def viaMapSize : MPObject → Nat
  | .map ps => ps.length
  | .arr es => es.length
  | _ => 0

/-- The C `via.map.ptr` walk of `flb_mp_accessor_keys_remove`.  Only reached
for genuine maps: a scalar never passes the size test and an array never
produces a match, so the non-map branch below is unreachable in the
embedding (in C it would read reinterpreted union memory). -/
def viaMapPairs : MPObject → MPPairs
  | .map ps => ps
  | _ => .nil

mutual

/-- Embeds `accessor_sub_pack`: step-by-step repackaging of one matched
top-level entry.  If the current key or value pointer is the innermost
matched key pointer, nothing is packed and `FLB_FALSE` is returned (the
entry is elided).  Otherwise the key (when present) is packed verbatim, a
map or array value is reconstructed through the incremental header builder,
counting only sub-entries whose recursive call returned `FLB_TRUE`, and any
other value is packed verbatim. -/
def accessor_sub_pack (m : AccMatch) (buf : List Nat)
    (key : Option (MpPath × MPObject)) (vpath : MpPath) (val : MPObject) :
    Bool × List Nat :=
  if m.key = Option.map Prod.fst key ∨ m.key = some vpath then
    (false, buf)
  else
    let buf1 :=
      match key with
      | some kp => buf ++ packObj kp.2
      | none => buf
    match val with
    | .map ps =>
      let st := flb_mp_map_header_init buf1
      let r := sub_pack_map m st.2 st.1 vpath 0 ps
      (true, flb_mp_map_header_end r.1 r.2)
    | .arr es =>
      let st := flb_mp_array_header_init buf1
      let r := sub_pack_arr m st.2 st.1 vpath 0 es
      (true, flb_mp_array_header_end r.1 r.2)
    | v => (true, buf1 ++ packObj v)

/-- The map loop inside `accessor_sub_pack`. -/
def sub_pack_map (m : AccMatch) (buf : List Nat) (mh : MapHeaderCtx)
    (p : MpPath) (i : Nat) : MPPairs → MapHeaderCtx × List Nat
  | .nil => (mh, buf)
  | .cons k v t =>
    let r := accessor_sub_pack m buf (some (p ++ [.mkey i], k)) (p ++ [.mval i]) v
    let mh2 := if r.1 then flb_mp_map_header_append mh else mh
    sub_pack_map m r.2 mh2 p (i + 1) t

/-- The array loop inside `accessor_sub_pack` (elements carry no key). -/
def sub_pack_arr (m : AccMatch) (buf : List Nat) (mh : MapHeaderCtx)
    (p : MpPath) (i : Nat) : MPList → MapHeaderCtx × List Nat
  | .nil => (mh, buf)
  | .cons e t =>
    let r := accessor_sub_pack m buf none (p ++ [.aelt i]) e
    let mh2 := if r.1 then flb_mp_array_header_append mh else mh
    sub_pack_arr m r.2 mh2 p (i + 1) t

end

/-- The main rewrite loop of `flb_mp_accessor_keys_remove`: for each
top-level entry, an entry anchoring no matched rule is packed verbatim (and
counted); an entry anchoring a matched rule is handed to
`accessor_sub_pack` with that rule — the first matched rule whose
`start_key` is this key — and counted only if the sub-pack packed it. -/
def keys_remove_loop (table : List AccMatch) (buf : List Nat)
    (mh : MapHeaderCtx) (i : Nat) : MPPairs → MapHeaderCtx × List Nat
  | .nil => (mh, buf)
  | .cons k v t =>
    match accessor_key_find_match table [.mkey i] with
    | none =>
      keys_remove_loop table (buf ++ packObj k ++ packObj v)
        (flb_mp_map_header_append mh) (i + 1) t
    | some m =>
      let r := accessor_sub_pack m buf (some ([.mkey i], k)) [.mval i] v
      keys_remove_loop table r.2
        (if r.1 then flb_mp_map_header_append mh else mh) (i + 1) t

/-- Embeds `flb_mp_accessor_keys_remove` for a freshly created accessor
context holding `pats`.  Returns `FLB_FALSE` (and leaves the output
parameters unwritten, modelled as `none`) when the record is empty-sized or
no rule matches; otherwise composes the rewritten record in a fresh sbuffer
through the incremental map header builder and returns `FLB_TRUE` with the
new buffer. -/
def flb_mp_accessor_keys_remove (pats : List RAPattern) (rec : MPObject) :
    Bool × Option (List Nat) :=
  if viaMapSize rec = 0 then (false, none)
  else
    let table := buildMatches pats rec
    if table.countP (fun m => m.matched) = 0 then (false, none)
    else
      let st := flb_mp_map_header_init []
      let r := keys_remove_loop table st.2 st.1 0 (viaMapPairs rec)
      (true, some (flb_mp_map_header_end r.1 r.2))

/-! ### Closed forms for the bytes produced by the rewrite

`accessor_sub_pack` threads an sbuffer and patches container headers in
place after the fact.  The functions below give the bytes it appends in
closed form (each rebuilt container already carrying its final count in the
widest header), and the record the rewrite denotes.  They are related to the
embedding by theorems, not by construction. -/

mutual

/-- Bytes `accessor_sub_pack` appends for an unelided value: rebuilt
containers carry a widest-form header with the final count of packed
sub-entries; any other value is the verbatim canonical encoding. -/
def spBody (m : AccMatch) (p : MpPath) : MPObject → List Nat
  | .map ps => 0xdf :: be32 (spMapCB m p 0 ps).1 ++ (spMapCB m p 0 ps).2
  | .arr es => 0xdd :: be32 (spArrCB m p 0 es).1 ++ (spArrCB m p 0 es).2
  | v => packObj v

/-- Count of packed entries and appended bytes of the sub-pack map loop. -/
def spMapCB (m : AccMatch) (p : MpPath) (i : Nat) : MPPairs → Nat × List Nat
  | .nil => (0, [])
  | .cons k v t =>
    let rest := spMapCB m p (i + 1) t
    if m.key = some (p ++ [.mkey i]) ∨ m.key = some (p ++ [.mval i]) then rest
    else (rest.1 + 1, (packObj k ++ spBody m (p ++ [.mval i]) v) ++ rest.2)

/-- Count of packed elements and appended bytes of the sub-pack array
loop. -/
def spArrCB (m : AccMatch) (p : MpPath) (i : Nat) : MPList → Nat × List Nat
  | .nil => (0, [])
  | .cons e t =>
    let rest := spArrCB m p (i + 1) t
    if m.key = none ∨ m.key = some (p ++ [.aelt i]) then rest
    else (rest.1 + 1, spBody m (p ++ [.aelt i]) e ++ rest.2)

end

mutual

/-- The record denoted by an unelided sub-pack of `val` at path `p`: the
single entry (or element) whose pointer is the rule's innermost matched key
pointer is removed, everything else is kept in order. -/
def eraseIn (m : AccMatch) (p : MpPath) : MPObject → MPObject
  | .map ps => .map (erasePairs m p 0 ps)
  | .arr es => .arr (eraseElems m p 0 es)
  | o => o

/-- Entry-wise removal under a map node. -/
def erasePairs (m : AccMatch) (p : MpPath) (i : Nat) : MPPairs → MPPairs
  | .nil => .nil
  | .cons k v t =>
    if m.key = some (p ++ [.mkey i]) ∨ m.key = some (p ++ [.mval i]) then
      erasePairs m p (i + 1) t
    else .cons k (eraseIn m (p ++ [.mval i]) v) (erasePairs m p (i + 1) t)

/-- Element-wise removal under an array node. -/
def eraseElems (m : AccMatch) (p : MpPath) (i : Nat) : MPList → MPList
  | .nil => .nil
  | .cons e t =>
    if m.key = none ∨ m.key = some (p ++ [.aelt i]) then
      eraseElems m p (i + 1) t
    else .cons (eraseIn m (p ++ [.aelt i]) e) (eraseElems m p (i + 1) t)

end

/-- Count of packed top-level entries and appended bytes of the main
rewrite loop. -/
def topCB (table : List AccMatch) (i : Nat) : MPPairs → Nat × List Nat
  | .nil => (0, [])
  | .cons k v t =>
    let rest := topCB table (i + 1) t
    match accessor_key_find_match table [.mkey i] with
    | none => (rest.1 + 1, (packObj k ++ packObj v) ++ rest.2)
    | some m =>
      if m.key = some [.mkey i] ∨ m.key = some [.mval i] then rest
      else (rest.1 + 1, (packObj k ++ spBody m [.mval i] v) ++ rest.2)

/-- The record the whole rewrite denotes, entry by entry: a top-level entry
anchoring no matched rule is kept verbatim; an entry anchoring matched rules
has only the first such rule applied — its innermost matched key/value pair
(or array element) is removed, and the entry itself disappears when that
rule matched the entry directly. -/
def topExpectedPairs (table : List AccMatch) (i : Nat) : MPPairs → MPPairs
  | .nil => .nil
  | .cons k v t =>
    match accessor_key_find_match table [.mkey i] with
    | none => .cons k v (topExpectedPairs table (i + 1) t)
    | some m =>
      if m.key = some [.mkey i] ∨ m.key = some [.mval i] then
        topExpectedPairs table (i + 1) t
      else .cons k (eraseIn m [.mval i] v) (topExpectedPairs table (i + 1) t)

/-- Bytes `accessor_sub_pack` emits for the entry key, when one is passed. -/
def keyBytes : Option (MpPath × MPObject) → List Nat
  | some kp => packObj kp.2
  | none => []

/-! ### Concrete sample records (used by witnesses and counterexamples) -/

/-- The pattern `a.b.c` (key names as byte strings: a=97, b=98, c=99). -/
def exPatABC : RAPattern := ⟨[97], [.skey [98], .skey [99]]⟩

/-- Entries of the record of the spec's end-to-end scenario 4:
`{a: {b: {c: 1, d: 2}, e: 3}, f: 4}`. -/
def exRec4Pairs : MPPairs :=
  .cons (.str [97])
    (.map (.cons (.str [98])
      (.map (.cons (.str [99]) (.uint 1) (.cons (.str [100]) (.uint 2) .nil)))
      (.cons (.str [101]) (.uint 3) .nil)))
    (.cons (.str [102]) (.uint 4) .nil)

/-- The record of the spec's end-to-end scenario 4. -/
def exRec4 : MPObject := .map exRec4Pairs

/-- Scenario 4 after removing `a.b.c`: `{a: {b: {d: 2}, e: 3}, f: 4}`. -/
def exRec4Removed : MPObject :=
  .map (.cons (.str [97])
    (.map (.cons (.str [98])
      (.map (.cons (.str [100]) (.uint 2) .nil))
      (.cons (.str [101]) (.uint 3) .nil)))
    (.cons (.str [102]) (.uint 4) .nil))

/-- Rewritten buffer of scenario 4. -/
def exBuf4 : List Nat :=
  match (flb_mp_accessor_keys_remove [exPatABC] exRec4).2 with
  | some b => b
  | none => []

/-- The pattern `a.b`. -/
def exPatAB : RAPattern := ⟨[97], [.skey [98]]⟩

/-- The pattern `a.c`. -/
def exPatAC : RAPattern := ⟨[97], [.skey [99]]⟩

/-- A record both `a.b` and `a.c` match, anchored at the same top-level key:
`{a: {b: 1, c: 2}}`. -/
def exRecShared : MPObject :=
  .map (.cons (.str [97])
    (.map (.cons (.str [98]) (.uint 1) (.cons (.str [99]) (.uint 2) .nil)))
    .nil)

/-- Rewritten buffer when both `a.b` and `a.c` are configured against
`exRecShared`. -/
def exBufShared : List Nat :=
  match (flb_mp_accessor_keys_remove [exPatAB, exPatAC] exRecShared).2 with
  | some b => b
  | none => []

/-- What the rewrite of `exRecShared` actually denotes: only `a.b`, the
first matched rule anchored at `a`, is applied — `{a: {c: 2}}`. -/
def exSharedGot : MPObject :=
  .map (.cons (.str [97])
    (.map (.cons (.str [99]) (.uint 2) .nil))
    .nil)

/-- What removing every matched innermost pair of `exRecShared` would
yield: `{a: {}}`. -/
def exSharedAllRemoved : MPObject :=
  .map (.cons (.str [97]) (.map .nil) .nil)

/-- The pattern `x` (a key the sample records do not contain). -/
def exPatX : RAPattern := ⟨[120], []⟩

/-- The record `{a: 1}`. -/
def exRecA1 : MPObject := .map (.cons (.str [97]) (.uint 1) .nil)

end FlbMp

namespace FlbOut

/-! ### The flush completion protocol (`flb_output.h`) -/

/-- Modelled from the spec (the disposition codes live in headers outside
the covered sources; the covered source's own comment agrees: "Return
value: FLB_OK (0) or FLB_ERROR (1)"). -/
def FLB_OK : Nat := 0

/-- Modelled from the spec: the `ERROR` disposition code. -/
def FLB_ERROR : Nat := 1

/-- Modelled from the spec: the `RETRY` disposition code. -/
def FLB_RETRY : Nat := 2

/-- The task event kind, written as a literal `2 /* FLB_ENGINE_TASK */` in
`flb_output_return`. -/
def FLB_ENGINE_TASK : Nat := 2

/-- Modelled from the spec: `FLB_TASK_SET` (`flb_task.h` is outside the
covered sources) packs the 32-bit completion payload — disposition in the
top 2 bits, task id in the next 15, output/frame id in the low 15; the OR of
the disjoint shifted fields is their sum.  The result is a `uint32_t`. -/
def FLB_TASK_SET (ret task_id out_id : Nat) : Nat :=
  (ret * 2 ^ 30 + task_id * 2 ^ 15 + out_id) % 2 ^ 32

/-- Modelled from the spec: `FLB_BITS_U64_SET` (`flb_bits.h` is outside the
covered sources) places `hi` in the high 32 bits and `lo` in the low 32
bits of a 64-bit word. -/
def FLB_BITS_U64_SET (hi lo : Nat) : Nat :=
  hi * 2 ^ 32 + lo % 2 ^ 32

/-- Per-instance output metrics counters. -/
structure Metrics where
  out_ok_records : Nat
  out_ok_bytes : Nat
  out_errors : Nat
  deriving Repr, DecidableEq

/-- Modelled from the spec: the metric counter ids passed to
`flb_metrics_sum`. -/
inductive MetricId where
  | out_ok_records
  | out_ok_bytes
  | out_errors
  deriving Repr, DecidableEq

/-- Modelled from the spec: `flb_metrics_sum` credits the named counter by
the given amount. -/
def flb_metrics_sum (id : MetricId) (v : Nat) (ms : Metrics) : Metrics :=
  match id with
  | .out_ok_records => { ms with out_ok_records := ms.out_ok_records + v }
  | .out_ok_bytes => { ms with out_ok_bytes := ms.out_ok_bytes + v }
  | .out_errors => { ms with out_errors := ms.out_errors + v }

/-- The task fields `flb_output_return` reads: id, record count and byte
size of the batch. -/
structure TaskInfo where
  id : Nat
  records : Nat
  size : Nat
  deriving Repr, DecidableEq

/-- Embeds `flb_output_return`: compose the 64-bit completion word from the
event kind, disposition, task id and frame id, emit it on the instance's
event pipe (the word is returned), then update the instance metrics when a
metrics handle is present — `OK` credits records and bytes, `ERROR` credits
one error, `RETRY` is counted by the scheduler, not here. -/
def flb_output_return (ret : Nat) (task : TaskInfo) (coro_id : Nat)
    (metrics : Option Metrics) : Nat × Option Metrics :=
  let set := FLB_TASK_SET ret task.id coro_id
  let val := FLB_BITS_U64_SET FLB_ENGINE_TASK set
  let metrics2 :=
    match metrics with
    | none => none
    | some ms =>
      if ret = FLB_OK then
        some (flb_metrics_sum .out_ok_bytes task.size
          (flb_metrics_sum .out_ok_records task.records ms))
      else if ret = FLB_ERROR then
        some (flb_metrics_sum .out_errors 1 ms)
      else some ms
  (val, metrics2)

/-! ### Flush-context teardown (`flb_output.h`) -/

/-- Embeds `struct flb_output_coro` as far as teardown observes it: the
coroutine id and a node identity `nid` standing for the address of the
structure (each live context is one heap object linked into two lists). -/
structure OutputCoro where
  id : Nat
  nid : Nat
  deriving Repr, DecidableEq

/-- The state teardown touches: the parent task's `users` counter and
context list (`task->coros`), and the owning instance's active list
(`o_ins->th_queue`, by node identity). -/
structure CoroState where
  users : Int
  coros : List OutputCoro
  th_queue : List Nat
  deriving Repr, DecidableEq

/-- Embeds `flb_output_coro_get`: scan the task's context list for the first
context with this id (`NULL` is `none`). -/
def flb_output_coro_get (id : Nat) (coros : List OutputCoro) :
    Option OutputCoro :=
  coros.find? fun c => c.id == id

/-- Embeds `flb_output_coro_destroy_id`: look the context up by id; when
absent return `-1` untouched; otherwise unlink it from the instance's active
list and the task's context list, destroy the coroutine (modelled from the
spec: `flb_coro_destroy` of `flb_coro.h` is outside the covered sources and,
per the spec, completion-path destruction decrements `users` exactly once),
and decrement `task->users`. -/
def flb_output_coro_destroy_id (id : Nat) (st : CoroState) :
    Int × CoroState :=
  match flb_output_coro_get id st.coros with
  | none => (-1, st)
  | some oc =>
    (0, { users := st.users - 1
          coros := st.coros.eraseP fun c => c.nid == oc.nid
          th_queue := st.th_queue.eraseP fun n => n == oc.nid })

/-- Embeds `cb_output_coro_destroy`, the frame destructor callback run at
teardown: decrement the parent task's `users` and unlink the context from
both lists. -/
def cb_output_coro_destroy (oc : OutputCoro) (st : CoroState) : CoroState :=
  { users := st.users - 1
    coros := st.coros.eraseP fun c => c.nid == oc.nid
    th_queue := st.th_queue.eraseP fun n => n == oc.nid }

end FlbOut

namespace FlbMp

/-! ### Helper lemmas: in-place byte stores -/

theorem set_len_append (a : List Nat) (x y : Nat) (c : List Nat) :
    (a ++ x :: c).set a.length y = a ++ y :: c := by
  induction a with
  | nil => rfl
  | cons h t ih => simp [List.set, ih]

theorem writeBytes_cover :
    ∀ (bs a mid c : List Nat), mid.length = bs.length →
      writeBytes (a ++ mid ++ c) a.length bs = a ++ bs ++ c := by
  intro bs
  induction bs with
  | nil =>
    intro a mid c h
    cases mid with
    | nil => simp [writeBytes]
    | cons m ms => simp at h
  | cons b bs ih =>
    intro a mid c h
    cases mid with
    | nil => simp at h
    | cons m ms =>
      have h1 : (a ++ (m :: ms) ++ c).set a.length b = a ++ b :: (ms ++ c) := by
        have := set_len_append a m b (ms ++ c)
        simp only [List.cons_append, List.append_assoc] at this ⊢
        exact this
      calc writeBytes (a ++ (m :: ms) ++ c) a.length (b :: bs)
          = writeBytes ((a ++ (m :: ms) ++ c).set a.length b) (a.length + 1) bs := rfl
        _ = writeBytes ((a ++ [b]) ++ ms ++ c) ((a ++ [b]).length) bs := by
            rw [h1]; simp
        _ = (a ++ [b]) ++ bs ++ c := ih _ _ _ (by simpa using h)
        _ = a ++ (b :: bs) ++ c := by simp

theorem getD_len_append (a : List Nat) (x : Nat) (c : List Nat) :
    (a ++ x :: c).getD a.length 0 = x := by
  rw [List.getD_append_right _ _ _ _ (le_refl _)]
  simp

theorem be16_length (n : Nat) : (be16 n).length = 2 := rfl

theorem be32_length (n : Nat) : (be32 n).length = 4 := rfl

theorem be64_length (n : Nat) : (be64 n).length = 8 := rfl

theorem be32_mod (n : Nat) : be32 (n % 2 ^ 32) = be32 n := by
  simp only [be32, List.cons.injEq, and_true]
  omega

theorem rdBE_be16 (n : Nat) (h : n < 2 ^ 16) : rdBE (be16 n) = n := by
  simp only [rdBE, be16, List.foldl]
  omega

theorem rdBE_be32 (n : Nat) (h : n < 2 ^ 32) : rdBE (be32 n) = n := by
  simp only [rdBE, be32, List.foldl]
  omega

theorem rdBE_be64 (n : Nat) (h : n < 2 ^ 64) : rdBE (be64 n) = n := by
  simp only [rdBE, be64, List.foldl]
  omega

/-! ### Helper lemmas: the header builder bracket -/

theorem set_map_header_size_wide (pre w payload : List Nat) (n : Nat)
    (hw : w.length = 4) :
    flb_mp_set_map_header_size (pre ++ 0xdf :: (w ++ payload)) pre.length n
      = pre ++ 0xdf :: (be32 n ++ payload) := by
  have hh : (pre ++ 0xdf :: (w ++ payload)).getD pre.length 0 = 0xdf :=
    getD_len_append pre 0xdf (w ++ payload)
  unfold flb_mp_set_map_header_size
  rw [hh]
  norm_num
  calc writeBytes (pre ++ 0xdf :: (w ++ payload)) (pre.length + 1) (be32 n)
      = writeBytes ((pre ++ [0xdf]) ++ w ++ payload) ((pre ++ [0xdf]).length)
          (be32 n) := by simp
    _ = (pre ++ [0xdf]) ++ be32 n ++ payload :=
        writeBytes_cover _ _ _ _ (by rw [hw, be32_length])
    _ = pre ++ 0xdf :: (be32 n ++ payload) := by simp

theorem set_array_header_size_wide (pre w payload : List Nat) (n : Nat)
    (hw : w.length = 4) :
    flb_mp_set_array_header_size (pre ++ 0xdd :: (w ++ payload)) pre.length n
      = pre ++ 0xdd :: (be32 n ++ payload) := by
  have hh : (pre ++ 0xdd :: (w ++ payload)).getD pre.length 0 = 0xdd :=
    getD_len_append pre 0xdd (w ++ payload)
  unfold flb_mp_set_array_header_size
  rw [hh]
  norm_num
  calc writeBytes (pre ++ 0xdd :: (w ++ payload)) (pre.length + 1) (be32 n)
      = writeBytes ((pre ++ [0xdd]) ++ w ++ payload) ((pre ++ [0xdd]).length)
          (be32 n) := by simp
    _ = (pre ++ [0xdd]) ++ be32 n ++ payload :=
        writeBytes_cover _ _ _ _ (by rw [hw, be32_length])
    _ = pre ++ 0xdd :: (be32 n ++ payload) := by simp

theorem packMapBytes_wide : msgpackPackMapBytes 65536 = 0xdf :: be32 65536 := by
  norm_num [msgpackPackMapBytes]

theorem packArrayBytes_wide :
    msgpackPackArrayBytes 65536 = 0xdd :: be32 65536 := by
  norm_num [msgpackPackArrayBytes]

theorem map_header_bracket (buf payload : List Nat) (n : Nat) :
    flb_mp_map_header_end ⟨buf.length, n⟩ ((flb_mp_map_header_init buf).2 ++ payload)
      = buf ++ 0xdf :: (be32 n ++ payload) := by
  show flb_mp_set_map_header_size
      ((buf ++ msgpackPackMapBytes 65536) ++ payload) buf.length n = _
  rw [packMapBytes_wide]
  have h2 : (buf ++ 0xdf :: be32 65536) ++ payload
      = buf ++ 0xdf :: (be32 65536 ++ payload) := by simp
  rw [h2]
  exact set_map_header_size_wide buf (be32 65536) payload n (be32_length _)

theorem array_header_bracket (buf payload : List Nat) (n : Nat) :
    flb_mp_array_header_end ⟨buf.length, n⟩
        ((flb_mp_array_header_init buf).2 ++ payload)
      = buf ++ 0xdd :: (be32 n ++ payload) := by
  show flb_mp_set_array_header_size
      ((buf ++ msgpackPackArrayBytes 65536) ++ payload) buf.length n = _
  rw [packArrayBytes_wide]
  have h2 : (buf ++ 0xdd :: be32 65536) ++ payload
      = buf ++ 0xdd :: (be32 65536 ++ payload) := by simp
  rw [h2]
  exact set_array_header_size_wide buf (be32 65536) payload n (be32_length _)

theorem mapHeaderAppendN_spec (n : Nat) (mh : MapHeaderCtx) :
    mapHeaderAppendN n mh = ⟨mh.offset, mh.entries + n⟩ := by
  induction n with
  | zero => simp [mapHeaderAppendN]
  | succ k ih =>
    simp [mapHeaderAppendN, flb_mp_map_header_append, ih]
    omega

theorem arrayHeaderAppendN_spec (n : Nat) (mh : MapHeaderCtx) :
    arrayHeaderAppendN n mh = ⟨mh.offset, mh.entries + n⟩ := by
  induction n with
  | zero => simp [arrayHeaderAppendN]
  | succ k ih =>
    simp [arrayHeaderAppendN, flb_mp_array_header_append, ih]
    omega

/-! ### Helper lemmas: one decoder step per header family -/

theorem readN_exact (bs rest : List Nat) :
    readN bs.length (bs ++ rest) = some (bs, rest) := by
  induction bs with
  | nil => rfl
  | cons b t ih => simp [readN, ih]

theorem decodeObj_fixuint (fuel b : Nat) (bs : List Nat) (h : b < 0x80) :
    decodeObj (fuel + 1) (b :: bs) = some (.uint b, bs) := by
  simp [decodeObj, h]

theorem decodeObj_nilB (fuel : Nat) (bs : List Nat) :
    decodeObj (fuel + 1) (0xc0 :: bs) = some (.nil, bs) := by
  norm_num [decodeObj]

theorem decodeObj_falseB (fuel : Nat) (bs : List Nat) :
    decodeObj (fuel + 1) (0xc2 :: bs) = some (.bool false, bs) := by
  norm_num [decodeObj]

theorem decodeObj_trueB (fuel : Nat) (bs : List Nat) :
    decodeObj (fuel + 1) (0xc3 :: bs) = some (.bool true, bs) := by
  norm_num [decodeObj]

theorem decodeObj_uint8 (fuel n : Nat) (bs : List Nat) :
    decodeObj (fuel + 1) (0xcc :: n :: bs) = some (.uint n, bs) := by
  norm_num [decodeObj]

theorem decodeObj_uint16 (fuel n : Nat) (bs : List Nat) (h : n < 2 ^ 16) :
    decodeObj (fuel + 1) (0xcd :: (be16 n ++ bs)) = some (.uint n, bs) := by
  norm_num [decodeObj]
  rw [show (2 : Nat) = (be16 n).length from rfl, readN_exact]
  simp [rdBE_be16 n h]

theorem decodeObj_uint32 (fuel n : Nat) (bs : List Nat) (h : n < 2 ^ 32) :
    decodeObj (fuel + 1) (0xce :: (be32 n ++ bs)) = some (.uint n, bs) := by
  norm_num [decodeObj]
  rw [show (4 : Nat) = (be32 n).length from rfl, readN_exact]
  simp [rdBE_be32 n h]

theorem decodeObj_uint64 (fuel n : Nat) (bs : List Nat) (h : n < 2 ^ 64) :
    decodeObj (fuel + 1) (0xcf :: (be64 n ++ bs)) = some (.uint n, bs) := by
  norm_num [decodeObj]
  rw [show (8 : Nat) = (be64 n).length from rfl, readN_exact]
  simp [rdBE_be64 n h]

theorem decodeObj_fixstr (fuel len : Nat) (s bs : List Nat) (h : len < 32)
    (hs : s.length = len) :
    decodeObj (fuel + 1) ((0xa0 + len) :: (s ++ bs)) = some (.str s, bs) := by
  have h1 : ¬(0xa0 + len < 0x80) := by omega
  have h2 : ¬(0xa0 + len < 0x90) := by omega
  have h3 : ¬(0xa0 + len < 0xa0) := by omega
  have h4 : 0xa0 + len < 0xc0 := by omega
  simp only [decodeObj, if_neg h1, if_neg h2, if_neg h3, if_pos h4]
  rw [show 0xa0 + len - 0xa0 = s.length by omega, readN_exact]

theorem decodeObj_str8 (fuel len : Nat) (s bs : List Nat)
    (hs : s.length = len) :
    decodeObj (fuel + 1) (0xd9 :: len :: (s ++ bs)) = some (.str s, bs) := by
  norm_num [decodeObj]
  rw [← hs, readN_exact]

theorem decodeObj_str16 (fuel len : Nat) (s bs : List Nat) (h : len < 2 ^ 16)
    (hs : s.length = len) :
    decodeObj (fuel + 1) (0xda :: (be16 len ++ (s ++ bs)))
      = some (.str s, bs) := by
  norm_num [decodeObj]
  rw [show (2 : Nat) = (be16 len).length from rfl, readN_exact]
  simp only [rdBE_be16 len h]
  rw [← hs, readN_exact]

theorem decodeObj_str32 (fuel len : Nat) (s bs : List Nat) (h : len < 2 ^ 32)
    (hs : s.length = len) :
    decodeObj (fuel + 1) (0xdb :: (be32 len ++ (s ++ bs)))
      = some (.str s, bs) := by
  norm_num [decodeObj]
  rw [show (4 : Nat) = (be32 len).length from rfl, readN_exact]
  simp only [rdBE_be32 len h]
  rw [← hs, readN_exact]

theorem decodeObj_fixarr (fuel len : Nat) (bs r : List Nat) (es : MPList)
    (h : len < 16) (hd : decodeList fuel len bs = some (es, r)) :
    decodeObj (fuel + 1) ((0x90 + len) :: bs) = some (.arr es, r) := by
  have h1 : ¬(0x90 + len < 0x80) := by omega
  have h2 : ¬(0x90 + len < 0x90) := by omega
  have h3 : 0x90 + len < 0xa0 := by omega
  simp only [decodeObj, if_neg h1, if_neg h2, if_pos h3]
  rw [show 0x90 + len - 0x90 = len by omega, hd]

theorem decodeObj_arr16 (fuel n : Nat) (bs r : List Nat) (es : MPList)
    (h : n < 2 ^ 16) (hd : decodeList fuel n bs = some (es, r)) :
    decodeObj (fuel + 1) (0xdc :: (be16 n ++ bs)) = some (.arr es, r) := by
  norm_num [decodeObj]
  rw [show (2 : Nat) = (be16 n).length from rfl, readN_exact]
  simp only [rdBE_be16 n h, hd]

theorem decodeObj_arr32 (fuel n : Nat) (bs r : List Nat) (es : MPList)
    (h : n < 2 ^ 32) (hd : decodeList fuel n bs = some (es, r)) :
    decodeObj (fuel + 1) (0xdd :: (be32 n ++ bs)) = some (.arr es, r) := by
  norm_num [decodeObj]
  rw [show (4 : Nat) = (be32 n).length from rfl, readN_exact]
  simp only [rdBE_be32 n h, hd]

theorem decodeObj_fixmap (fuel len : Nat) (bs r : List Nat) (ps : MPPairs)
    (h : len < 16) (hd : decodePairs fuel len bs = some (ps, r)) :
    decodeObj (fuel + 1) ((0x80 + len) :: bs) = some (.map ps, r) := by
  have h1 : ¬(0x80 + len < 0x80) := by omega
  have h2 : 0x80 + len < 0x90 := by omega
  simp only [decodeObj, if_neg h1, if_pos h2]
  rw [show 0x80 + len - 0x80 = len by omega, hd]

theorem decodeObj_map16 (fuel n : Nat) (bs r : List Nat) (ps : MPPairs)
    (h : n < 2 ^ 16) (hd : decodePairs fuel n bs = some (ps, r)) :
    decodeObj (fuel + 1) (0xde :: (be16 n ++ bs)) = some (.map ps, r) := by
  norm_num [decodeObj]
  rw [show (2 : Nat) = (be16 n).length from rfl, readN_exact]
  simp only [rdBE_be16 n h, hd]

theorem decodeObj_map32 (fuel n : Nat) (bs r : List Nat) (ps : MPPairs)
    (h : n < 2 ^ 32) (hd : decodePairs fuel n bs = some (ps, r)) :
    decodeObj (fuel + 1) (0xdf :: (be32 n ++ bs)) = some (.map ps, r) := by
  norm_num [decodeObj]
  rw [show (4 : Nat) = (be32 n).length from rfl, readN_exact]
  simp only [rdBE_be32 n h, hd]

/-! ### Helper lemmas: decoder fuel bounds and packed-entry counts -/

theorem costObj_pos (o : MPObject) : 1 ≤ costObj o := by
  cases o <;> simp [costObj]

theorem costList_pos (l : MPList) : 1 ≤ costList l := by
  cases l <;> simp [costList]

theorem costPairs_pos (t : MPPairs) : 1 ≤ costPairs t := by
  cases t <;> simp [costPairs]

theorem spMapCB_count_le (m : AccMatch) (p : MpPath) :
    (i : Nat) → (t : MPPairs) → (spMapCB m p i t).1 ≤ t.length
  | _, .nil => by simp [spMapCB, MPPairs.length]
  | i, .cons k v t => by
    have ih := spMapCB_count_le m p (i + 1) t
    simp only [spMapCB, MPPairs.length]
    split
    · omega
    · simp only []
      omega

theorem spArrCB_count_le (m : AccMatch) (p : MpPath) :
    (i : Nat) → (l : MPList) → (spArrCB m p i l).1 ≤ l.length
  | _, .nil => by simp [spArrCB, MPList.length]
  | i, .cons e l => by
    have ih := spArrCB_count_le m p (i + 1) l
    simp only [spArrCB, MPList.length]
    split
    · omega
    · simp only []
      omega

theorem topCB_count_le (table : List AccMatch) :
    (i : Nat) → (t : MPPairs) → (topCB table i t).1 ≤ t.length
  | _, .nil => by simp [topCB, MPPairs.length]
  | i, .cons k v t => by
    have ih := topCB_count_le table (i + 1) t
    simp only [topCB, MPPairs.length]
    split
    · omega
    · split
      · omega
      · simp only []
        omega

/-! ### Decode correctness: canonical packs and the sub-pack rewrite

The six mutually recursive theorems below track the decoder: a canonical
`msgpack_pack_object` encoding decodes to the packed object, and the bytes
appended by an unelided `accessor_sub_pack` decode to the object with the
rule's innermost matched node removed (`eraseIn`), with every container
header read back exactly as the count of entries actually packed.  The
lexicographic measure mirrors the decoder: fuel drops on every consumed
object, and elided entries recurse structurally at the same fuel. -/

mutual

theorem pack_decode_obj : (fuel : Nat) → (o : MPObject) → (rest : List Nat) →
    sized32 o = true → costObj o ≤ fuel →
    decodeObj fuel (packObj o ++ rest) = some (o, rest)
  | 0, o, _, _, hc => absurd hc (by have := costObj_pos o; omega)
  | fuel + 1, .nil, rest, _, _ => by
    simpa [packObj] using decodeObj_nilB fuel rest
  | fuel + 1, .bool false, rest, _, _ => by
    simpa [packObj] using decodeObj_falseB fuel rest
  | fuel + 1, .bool true, rest, _, _ => by
    simpa [packObj] using decodeObj_trueB fuel rest
  | fuel + 1, .uint n, rest, hs, _ => by
    by_cases h1 : n < 128
    · simpa [packObj, h1] using decodeObj_fixuint fuel n rest h1
    · by_cases h2 : n < 256
      · simpa [packObj, h1, h2] using decodeObj_uint8 fuel n rest
      · by_cases h3 : n < 65536
        · simpa [packObj, h1, h2, h3] using decodeObj_uint16 fuel n rest h3
        · by_cases h4 : n < 4294967296
          · simpa [packObj, h1, h2, h3, h4] using decodeObj_uint32 fuel n rest h4
          · have h5 : n < 2 ^ 64 := by simpa [sized32] using hs
            simpa [packObj, h1, h2, h3, h4] using decodeObj_uint64 fuel n rest h5
  | fuel + 1, .str s, rest, hs, _ => by
    have h32 : s.length < 2 ^ 32 := by simpa [sized32] using hs
    by_cases h1 : s.length < 32
    · simpa [packObj, h1] using decodeObj_fixstr fuel s.length s rest h1 rfl
    · by_cases h2 : s.length < 256
      · simpa [packObj, h1, h2] using decodeObj_str8 fuel s.length s rest rfl
      · by_cases h3 : s.length < 65536
        · simpa [packObj, h1, h2, h3] using
            decodeObj_str16 fuel s.length s rest h3 rfl
        · simpa [packObj, h1, h2, h3] using
            decodeObj_str32 fuel s.length s rest h32 rfl
  | fuel + 1, .arr es, rest, hs, hc => by
    have hsz : es.length < 2 ^ 32 ∧ sized32L es = true := by
      simpa [sized32] using hs
    have hcl : costList es ≤ fuel := by
      simp only [costObj] at hc; omega
    have hd := pack_decode_list fuel es rest hsz.2 hcl
    by_cases h1 : es.length < 16
    · simpa [packObj, msgpackPackArrayBytes, h1] using
        decodeObj_fixarr fuel es.length (packList es ++ rest) rest es
          (by omega) hd
    · by_cases h2 : es.length < 65536
      · simpa [packObj, msgpackPackArrayBytes, h1, h2] using
          decodeObj_arr16 fuel es.length (packList es ++ rest) rest es h2 hd
      · simpa [packObj, msgpackPackArrayBytes, h1, h2] using
          decodeObj_arr32 fuel es.length (packList es ++ rest) rest es hsz.1 hd
  | fuel + 1, .map ps, rest, hs, hc => by
    have hsz : ps.length < 2 ^ 32 ∧ sized32P ps = true := by
      simpa [sized32] using hs
    have hcp : costPairs ps ≤ fuel := by
      simp only [costObj] at hc; omega
    have hd := pack_decode_pairs fuel ps rest hsz.2 hcp
    by_cases h1 : ps.length < 16
    · simpa [packObj, msgpackPackMapBytes, h1] using
        decodeObj_fixmap fuel ps.length (packPairs ps ++ rest) rest ps
          (by omega) hd
    · by_cases h2 : ps.length < 65536
      · simpa [packObj, msgpackPackMapBytes, h1, h2] using
          decodeObj_map16 fuel ps.length (packPairs ps ++ rest) rest ps h2 hd
      · simpa [packObj, msgpackPackMapBytes, h1, h2] using
          decodeObj_map32 fuel ps.length (packPairs ps ++ rest) rest ps hsz.1 hd
termination_by fuel o => (fuel, sizeOf o, 0)

theorem pack_decode_list : (fuel : Nat) → (l : MPList) → (rest : List Nat) →
    sized32L l = true → costList l ≤ fuel →
    decodeList fuel l.length (packList l ++ rest) = some (l, rest)
  | 0, l, _, _, hc => absurd hc (by have := costList_pos l; omega)
  | fuel + 1, .nil, rest, _, _ => by simp [packList, MPList.length, decodeList]
  | fuel + 1, .cons e t, rest, hs, hc => by
    have hsp : sized32 e = true ∧ sized32L t = true := by
      simpa [sized32L] using hs
    have hce : costObj e ≤ fuel := by simp only [costList] at hc; omega
    have hct : costList t ≤ fuel := by
      have := costObj_pos e; simp only [costList] at hc; omega
    have h1 := pack_decode_obj fuel e (packList t ++ rest) hsp.1 hce
    have h2 := pack_decode_list fuel t rest hsp.2 hct
    simp [packList, MPList.length, decodeList, h1, h2]
termination_by fuel l => (fuel, sizeOf l, 0)

theorem pack_decode_pairs : (fuel : Nat) → (t : MPPairs) → (rest : List Nat) →
    sized32P t = true → costPairs t ≤ fuel →
    decodePairs fuel t.length (packPairs t ++ rest) = some (t, rest)
  | 0, t, _, _, hc => absurd hc (by have := costPairs_pos t; omega)
  | fuel + 1, .nil, rest, _, _ => by simp [packPairs, MPPairs.length, decodePairs]
  | fuel + 1, .cons k v t, rest, hs, hc => by
    have hsp : sized32 k = true ∧ sized32 v = true ∧ sized32P t = true := by
      simpa [sized32P, Bool.and_eq_true, and_assoc] using hs
    have hck : costObj k ≤ fuel := by simp only [costPairs] at hc; omega
    have hcv : costObj v ≤ fuel := by
      have := costObj_pos k; simp only [costPairs] at hc; omega
    have hct : costPairs t ≤ fuel := by
      have := costObj_pos k; have := costObj_pos v
      simp only [costPairs] at hc; omega
    have h1 := pack_decode_obj fuel k (packObj v ++ (packPairs t ++ rest)) hsp.1 hck
    have h2 := pack_decode_obj fuel v (packPairs t ++ rest) hsp.2.1 hcv
    have h3 := pack_decode_pairs fuel t rest hsp.2.2 hct
    simp [packPairs, MPPairs.length, decodePairs, h1, h2, h3]
termination_by fuel t => (fuel, sizeOf t, 0)

theorem sp_decode_body : (fuel : Nat) → (m : AccMatch) → (p : MpPath) →
    (v : MPObject) → (rest : List Nat) →
    sized32 v = true → costObj v ≤ fuel →
    decodeObj fuel (spBody m p v ++ rest) = some (eraseIn m p v, rest)
  | 0, _, _, v, _, _, hc => absurd hc (by have := costObj_pos v; omega)
  | fuel + 1, m, p, .nil, rest, hs, hc => by
    simpa [spBody, eraseIn] using
      pack_decode_obj (fuel + 1) .nil rest hs hc
  | fuel + 1, m, p, .bool b, rest, hs, hc => by
    simpa [spBody, eraseIn] using
      pack_decode_obj (fuel + 1) (.bool b) rest hs hc
  | fuel + 1, m, p, .uint n, rest, hs, hc => by
    simpa [spBody, eraseIn] using
      pack_decode_obj (fuel + 1) (.uint n) rest hs hc
  | fuel + 1, m, p, .str s, rest, hs, hc => by
    simpa [spBody, eraseIn] using
      pack_decode_obj (fuel + 1) (.str s) rest hs hc
  | fuel + 1, m, p, .arr es, rest, hs, hc => by
    have hsz : es.length < 2 ^ 32 ∧ sized32L es = true := by
      simpa [sized32] using hs
    have hcl : costList es ≤ fuel := by simp only [costObj] at hc; omega
    have hcnt : (spArrCB m p 0 es).1 < 2 ^ 32 :=
      lt_of_le_of_lt (spArrCB_count_le m p 0 es) hsz.1
    have hd := sp_decode_elems fuel m p 0 es rest hsz.2 hcl
    have := decodeObj_arr32 fuel (spArrCB m p 0 es).1
      ((spArrCB m p 0 es).2 ++ rest) rest (eraseElems m p 0 es) hcnt hd
    simpa [spBody, eraseIn] using this
  | fuel + 1, m, p, .map ps, rest, hs, hc => by
    have hsz : ps.length < 2 ^ 32 ∧ sized32P ps = true := by
      simpa [sized32] using hs
    have hcp : costPairs ps ≤ fuel := by simp only [costObj] at hc; omega
    have hcnt : (spMapCB m p 0 ps).1 < 2 ^ 32 :=
      lt_of_le_of_lt (spMapCB_count_le m p 0 ps) hsz.1
    have hd := sp_decode_pairs fuel m p 0 ps rest hsz.2 hcp
    have := decodeObj_map32 fuel (spMapCB m p 0 ps).1
      ((spMapCB m p 0 ps).2 ++ rest) rest (erasePairs m p 0 ps) hcnt hd
    simpa [spBody, eraseIn] using this
termination_by fuel m p v => (fuel, sizeOf v, 1)

theorem sp_decode_pairs : (fuel : Nat) → (m : AccMatch) → (p : MpPath) →
    (i : Nat) → (t : MPPairs) → (rest : List Nat) →
    sized32P t = true → costPairs t ≤ fuel →
    decodePairs fuel (spMapCB m p i t).1 ((spMapCB m p i t).2 ++ rest)
      = some (erasePairs m p i t, rest)
  | 0, _, _, _, t, _, _, hc => absurd hc (by have := costPairs_pos t; omega)
  | fuel + 1, m, p, i, .nil, rest, _, _ => by
    simp [spMapCB, erasePairs, decodePairs]
  | fuel + 1, m, p, i, .cons k v t, rest, hs, hc => by
    have hsp : sized32 k = true ∧ sized32 v = true ∧ sized32P t = true := by
      simpa [sized32P, Bool.and_eq_true, and_assoc] using hs
    have hck : costObj k ≤ fuel := by simp only [costPairs] at hc; omega
    have hcv : costObj v ≤ fuel := by
      have := costObj_pos k; simp only [costPairs] at hc; omega
    have hct : costPairs t ≤ fuel := by
      have := costObj_pos k; have := costObj_pos v
      simp only [costPairs] at hc; omega
    have hct1 : costPairs t ≤ fuel + 1 := by omega
    by_cases hg : m.key = some (p ++ [.mkey i]) ∨ m.key = some (p ++ [.mval i])
    · have ih := sp_decode_pairs (fuel + 1) m p (i + 1) t rest hsp.2.2 hct1
      simpa [spMapCB, erasePairs, hg] using ih
    · have h1 := pack_decode_obj fuel k
        (spBody m (p ++ [.mval i]) v ++ ((spMapCB m p (i + 1) t).2 ++ rest))
        hsp.1 hck
      have h2 := sp_decode_body fuel m (p ++ [.mval i]) v
        ((spMapCB m p (i + 1) t).2 ++ rest) hsp.2.1 hcv
      have h3 := sp_decode_pairs fuel m p (i + 1) t rest hsp.2.2 hct
      simp [spMapCB, erasePairs, hg, decodePairs, h1, h2, h3]
termination_by fuel m p i t => (fuel, sizeOf t, 1)

theorem sp_decode_elems : (fuel : Nat) → (m : AccMatch) → (p : MpPath) →
    (i : Nat) → (l : MPList) → (rest : List Nat) →
    sized32L l = true → costList l ≤ fuel →
    decodeList fuel (spArrCB m p i l).1 ((spArrCB m p i l).2 ++ rest)
      = some (eraseElems m p i l, rest)
  | 0, _, _, _, l, _, _, hc => absurd hc (by have := costList_pos l; omega)
  | fuel + 1, m, p, i, .nil, rest, _, _ => by
    simp [spArrCB, eraseElems, decodeList]
  | fuel + 1, m, p, i, .cons e t, rest, hs, hc => by
    have hsp : sized32 e = true ∧ sized32L t = true := by
      simpa [sized32L] using hs
    have hce : costObj e ≤ fuel := by simp only [costList] at hc; omega
    have hct : costList t ≤ fuel := by
      have := costObj_pos e; simp only [costList] at hc; omega
    have hct1 : costList t ≤ fuel + 1 := by omega
    by_cases hg : m.key = none ∨ m.key = some (p ++ [.aelt i])
    · have ih := sp_decode_elems (fuel + 1) m p (i + 1) t rest hsp.2 hct1
      simpa [spArrCB, eraseElems, hg] using ih
    · have h1 := sp_decode_body fuel m (p ++ [.aelt i]) e
        ((spArrCB m p (i + 1) t).2 ++ rest) hsp.1 hce
      have h2 := sp_decode_elems fuel m p (i + 1) t rest hsp.2 hct
      simp [spArrCB, eraseElems, hg, decodeList, h1, h2]
termination_by fuel m p i l => (fuel, sizeOf l, 1)

end

/-! ### The threaded sub-pack equals its closed form -/

mutual

theorem sub_pack_shape : (m : AccMatch) → (buf : List Nat) →
    (key : Option (MpPath × MPObject)) → (vpath : MpPath) → (val : MPObject) →
    accessor_sub_pack m buf key vpath val
      = (if m.key = Option.map Prod.fst key ∨ m.key = some vpath then
          (false, buf)
        else (true, buf ++ (keyBytes key ++ spBody m vpath val)))
  | m, buf, key, vpath, val => by
    by_cases hg : m.key = Option.map Prod.fst key ∨ m.key = some vpath
    · rw [if_pos hg]
      cases key with
      | none =>
        simp at hg
        cases val <;> simp [accessor_sub_pack, hg]
      | some kp =>
        simp at hg
        cases val <;> simp [accessor_sub_pack, hg]
    · obtain ⟨hg1, hg2⟩ := not_or.mp hg
      rw [if_neg hg]
      cases val with
      | map ps =>
        have hm := sub_pack_map_shape m
          ((buf ++ keyBytes key) ++ msgpackPackMapBytes 65536)
          ⟨(buf ++ keyBytes key).length, 0⟩ vpath 0 ps
        have hend := map_header_bracket (buf ++ keyBytes key)
          (spMapCB m vpath 0 ps).2 (spMapCB m vpath 0 ps).1
        cases key with
        | none =>
          simp at hg1
          simp [accessor_sub_pack, keyBytes, flb_mp_map_header_init,
            flb_mp_map_header_end, hg1, hg2, spBody] at hm hend ⊢
          simp [hm, hend]
        | some kp =>
          simp at hg1
          simp [accessor_sub_pack, keyBytes, flb_mp_map_header_init,
            flb_mp_map_header_end, hg1, hg2, spBody] at hm hend ⊢
          simp [hm, hend]
      | arr es =>
        have hm := sub_pack_arr_shape m
          ((buf ++ keyBytes key) ++ msgpackPackArrayBytes 65536)
          ⟨(buf ++ keyBytes key).length, 0⟩ vpath 0 es
        have hend := array_header_bracket (buf ++ keyBytes key)
          (spArrCB m vpath 0 es).2 (spArrCB m vpath 0 es).1
        cases key with
        | none =>
          simp at hg1
          simp [accessor_sub_pack, keyBytes, flb_mp_array_header_init,
            flb_mp_array_header_end, hg1, hg2, spBody] at hm hend ⊢
          simp [hm, hend]
        | some kp =>
          simp at hg1
          simp [accessor_sub_pack, keyBytes, flb_mp_array_header_init,
            flb_mp_array_header_end, hg1, hg2, spBody] at hm hend ⊢
          simp [hm, hend]
      | nil =>
        cases key with
        | none =>
          simp at hg1
          simp [accessor_sub_pack, keyBytes, hg1, hg2, spBody]
        | some kp =>
          simp at hg1
          simp [accessor_sub_pack, keyBytes, hg1, hg2, spBody]
      | bool b =>
        cases key with
        | none =>
          simp at hg1
          simp [accessor_sub_pack, keyBytes, hg1, hg2, spBody]
        | some kp =>
          simp at hg1
          simp [accessor_sub_pack, keyBytes, hg1, hg2, spBody]
      | uint n =>
        cases key with
        | none =>
          simp at hg1
          simp [accessor_sub_pack, keyBytes, hg1, hg2, spBody]
        | some kp =>
          simp at hg1
          simp [accessor_sub_pack, keyBytes, hg1, hg2, spBody]
      | str s =>
        cases key with
        | none =>
          simp at hg1
          simp [accessor_sub_pack, keyBytes, hg1, hg2, spBody]
        | some kp =>
          simp at hg1
          simp [accessor_sub_pack, keyBytes, hg1, hg2, spBody]

theorem sub_pack_map_shape : (m : AccMatch) → (buf : List Nat) →
    (mh : MapHeaderCtx) → (p : MpPath) → (i : Nat) → (t : MPPairs) →
    sub_pack_map m buf mh p i t
      = (⟨mh.offset, mh.entries + (spMapCB m p i t).1⟩,
         buf ++ (spMapCB m p i t).2)
  | m, buf, mh, p, i, .nil => by simp [sub_pack_map, spMapCB]
  | m, buf, mh, p, i, .cons k v t => by
    have hsub := sub_pack_shape m buf (some (p ++ [MpStep.mkey i], k))
      (p ++ [MpStep.mval i]) v
    by_cases hg : m.key = some (p ++ [MpStep.mkey i]) ∨
        m.key = some (p ++ [MpStep.mval i])
    · have ih := sub_pack_map_shape m buf mh p (i + 1) t
      simp only [Option.map_some] at hsub
      simp [sub_pack_map, hsub, hg, spMapCB, ih]
    · have ih := sub_pack_map_shape m
        (buf ++ (keyBytes (some (p ++ [MpStep.mkey i], k))
          ++ spBody m (p ++ [MpStep.mval i]) v))
        (flb_mp_map_header_append mh) p (i + 1) t
      simp only [Option.map_some] at hsub
      simp [keyBytes, flb_mp_map_header_append] at ih
      simp [sub_pack_map, hsub, hg, spMapCB, ih, keyBytes,
        flb_mp_map_header_append]
      omega

theorem sub_pack_arr_shape : (m : AccMatch) → (buf : List Nat) →
    (mh : MapHeaderCtx) → (p : MpPath) → (i : Nat) → (l : MPList) →
    sub_pack_arr m buf mh p i l
      = (⟨mh.offset, mh.entries + (spArrCB m p i l).1⟩,
         buf ++ (spArrCB m p i l).2)
  | m, buf, mh, p, i, .nil => by simp [sub_pack_arr, spArrCB]
  | m, buf, mh, p, i, .cons e t => by
    have hsub := sub_pack_shape m buf none (p ++ [MpStep.aelt i]) e
    by_cases hg : m.key = none ∨ m.key = some (p ++ [MpStep.aelt i])
    · have ih := sub_pack_arr_shape m buf mh p (i + 1) t
      simp only [Option.map_none] at hsub
      simp [sub_pack_arr, hsub, hg, spArrCB, ih]
    · have ih := sub_pack_arr_shape m
        (buf ++ (keyBytes none ++ spBody m (p ++ [MpStep.aelt i]) e))
        (flb_mp_array_header_append mh) p (i + 1) t
      simp only [Option.map_none] at hsub
      simp [keyBytes, flb_mp_array_header_append] at ih
      simp [sub_pack_arr, hsub, hg, spArrCB, ih, keyBytes,
        flb_mp_array_header_append]
      omega

end

/-! ### The main rewrite loop equals its closed form, and decodes -/

theorem keys_remove_loop_shape (table : List AccMatch) :
    (buf : List Nat) → (mh : MapHeaderCtx) → (i : Nat) → (t : MPPairs) →
    keys_remove_loop table buf mh i t
      = (⟨mh.offset, mh.entries + (topCB table i t).1⟩,
         buf ++ (topCB table i t).2)
  | buf, mh, i, .nil => by simp [keys_remove_loop, topCB]
  | buf, mh, i, .cons k v t => by
    cases hfind : accessor_key_find_match table [MpStep.mkey i] with
    | none =>
      have ih := keys_remove_loop_shape table (buf ++ packObj k ++ packObj v)
        (flb_mp_map_header_append mh) (i + 1) t
      simp [keys_remove_loop, flb_mp_map_header_append] at ih
      simp [keys_remove_loop, hfind, topCB, ih, flb_mp_map_header_append]
      omega
    | some m =>
      have hsub := sub_pack_shape m buf (some ([MpStep.mkey i], k))
        [MpStep.mval i] v
      simp only [Option.map_some] at hsub
      by_cases hg : m.key = some [MpStep.mkey i] ∨ m.key = some [MpStep.mval i]
      · have ih := keys_remove_loop_shape table buf mh (i + 1) t
        simp [keys_remove_loop, hfind, hsub, hg, topCB, ih]
      · have ih := keys_remove_loop_shape table
          (buf ++ (keyBytes (some ([MpStep.mkey i], k)) ++ spBody m [MpStep.mval i] v))
          (flb_mp_map_header_append mh) (i + 1) t
        simp [keyBytes, flb_mp_map_header_append] at ih
        simp [keys_remove_loop, hfind, hsub, hg, topCB, ih, keyBytes,
          flb_mp_map_header_append]
        omega

theorem top_decode : (fuel : Nat) → (table : List AccMatch) → (i : Nat) →
    (t : MPPairs) → (rest : List Nat) →
    sized32P t = true → costPairs t ≤ fuel →
    decodePairs fuel (topCB table i t).1 ((topCB table i t).2 ++ rest)
      = some (topExpectedPairs table i t, rest)
  | 0, _, _, t, _, _, hc => absurd hc (by have := costPairs_pos t; omega)
  | fuel + 1, table, i, .nil, rest, _, _ => by
    simp [topCB, topExpectedPairs, decodePairs]
  | fuel + 1, table, i, .cons k v t, rest, hs, hc => by
    have hsp : sized32 k = true ∧ sized32 v = true ∧ sized32P t = true := by
      simpa [sized32P, Bool.and_eq_true, and_assoc] using hs
    have hck : costObj k ≤ fuel := by simp only [costPairs] at hc; omega
    have hcv : costObj v ≤ fuel := by
      have := costObj_pos k; simp only [costPairs] at hc; omega
    have hct : costPairs t ≤ fuel := by
      have := costObj_pos k; have := costObj_pos v
      simp only [costPairs] at hc; omega
    have hct1 : costPairs t ≤ fuel + 1 := by omega
    cases hfind : accessor_key_find_match table [.mkey i] with
    | none =>
      have h1 := pack_decode_obj fuel k
        (packObj v ++ ((topCB table (i + 1) t).2 ++ rest)) hsp.1 hck
      have h2 := pack_decode_obj fuel v
        ((topCB table (i + 1) t).2 ++ rest) hsp.2.1 hcv
      have h3 := top_decode fuel table (i + 1) t rest hsp.2.2 hct
      simp [topCB, topExpectedPairs, hfind, decodePairs, h1, h2, h3]
    | some m =>
      by_cases hg : m.key = some [.mkey i] ∨ m.key = some [.mval i]
      · have ih := top_decode (fuel + 1) table (i + 1) t rest hsp.2.2 hct1
        simpa [topCB, topExpectedPairs, hfind, hg] using ih
      · have h1 := pack_decode_obj fuel k
          (spBody m [.mval i] v ++ ((topCB table (i + 1) t).2 ++ rest))
          hsp.1 hck
        have h2 := sp_decode_body fuel m [.mval i] v
          ((topCB table (i + 1) t).2 ++ rest) hsp.2.1 hcv
        have h3 := top_decode fuel table (i + 1) t rest hsp.2.2 hct
        simp [topCB, topExpectedPairs, hfind, hg, decodePairs, h1, h2, h3]
termination_by fuel table i t => (fuel, sizeOf t)

theorem getD_skip_header (a : List Nat) (x : Nat) (w c : List Nat)
    (hw : w.length = 4) (i : Nat) (h : a.length + 5 ≤ i) :
    (a ++ x :: (w ++ c)).getD i 0 = c.getD (i - a.length - 5) 0 := by
  have h1 : (a ++ x :: (w ++ c)) = (a ++ x :: w) ++ c := by simp
  have h2 : (a ++ x :: w).length = a.length + 5 := by simp [hw]
  rw [h1, List.getD_append_right _ _ _ _ (by omega), h2]
  congr 1

theorem map_end_appendN (buf payload : List Nat) (n : Nat) :
    flb_mp_map_header_end (mapHeaderAppendN n (flb_mp_map_header_init buf).1)
        ((flb_mp_map_header_init buf).2 ++ payload)
      = buf ++ 0xdf :: (be32 n ++ payload) := by
  have h1 := mapHeaderAppendN_spec n (flb_mp_map_header_init buf).1
  rw [h1]
  simpa [flb_mp_map_header_init] using map_header_bracket buf payload n

theorem array_end_appendN (buf payload : List Nat) (n : Nat) :
    flb_mp_array_header_end
        (arrayHeaderAppendN n (flb_mp_array_header_init buf).1)
        ((flb_mp_array_header_init buf).2 ++ payload)
      = buf ++ 0xdd :: (be32 n ++ payload) := by
  have h1 := arrayHeaderAppendN_spec n (flb_mp_array_header_init buf).1
  rw [h1]
  simpa [flb_mp_array_header_init] using array_header_bracket buf payload n

/-! ### Claim theorems -/

/-- C2: after `flb_mp_map_header_init` on an sbuffer, `N` calls to
`flb_mp_map_header_append` and one `flb_mp_map_header_end`, the header at the
recorded offset (the end of the original buffer) is the map32 header whose
four count bytes encode exactly `N`, so a standard msgpack decoder reads
exactly `N` key/value pairs there; the same holds for the array builder and
`N` array elements. -/
theorem flb_c2_header_roundtrip (buf payload : List Nat) (N : Nat)
    (hN : N ≤ 2 ^ 32 - 1) :
    flb_mp_map_header_end (mapHeaderAppendN N (flb_mp_map_header_init buf).1)
        ((flb_mp_map_header_init buf).2 ++ payload)
      = buf ++ 0xdf :: (be32 N ++ payload) ∧
    flb_mp_array_header_end
        (arrayHeaderAppendN N (flb_mp_array_header_init buf).1)
        ((flb_mp_array_header_init buf).2 ++ payload)
      = buf ++ 0xdd :: (be32 N ++ payload) ∧
    rdBE (be32 N) = N ∧
    (∀ fuel (ps : MPPairs) rest, ps.length = N → sized32P ps = true →
      costPairs ps ≤ fuel →
      decodeObj (fuel + 1) (0xdf :: (be32 N ++ (packPairs ps ++ rest)))
        = some (.map ps, rest)) ∧
    (∀ fuel (es : MPList) rest, es.length = N → sized32L es = true →
      costList es ≤ fuel →
      decodeObj (fuel + 1) (0xdd :: (be32 N ++ (packList es ++ rest)))
        = some (.arr es, rest)) := by
  have hlt : N < 2 ^ 32 := by omega
  refine ⟨map_end_appendN buf payload N, array_end_appendN buf payload N,
    rdBE_be32 N hlt, ?_, ?_⟩
  · intro fuel ps rest h1 h2 h3
    subst h1
    exact decodeObj_map32 fuel ps.length (packPairs ps ++ rest) rest ps hlt
      (pack_decode_pairs fuel ps rest h2 h3)
  · intro fuel es rest h1 h2 h3
    subst h1
    exact decodeObj_arr32 fuel es.length (packList es ++ rest) rest es hlt
      (pack_decode_list fuel es rest h2 h3)

/-- Witness for C2 at `N = 2`, a nonempty prior buffer, a nonempty payload,
and a concrete two-entry pair run read back by the decoder. -/
theorem flb_c2_header_roundtrip_witness :
    (2 ≤ 2 ^ 32 - 1 ∧
      flb_mp_map_header_end (mapHeaderAppendN 2 (flb_mp_map_header_init [9]).1)
          ((flb_mp_map_header_init [9]).2 ++ [1, 2])
        = [9] ++ 0xdf :: (be32 2 ++ [1, 2])) ∧
    decodeObj 101 (0xdf :: (be32 2 ++ (packPairs exRec4Pairs ++ [])))
      = some (.map exRec4Pairs, []) := by
  refine ⟨⟨by norm_num, (flb_c2_header_roundtrip [9] [1, 2] 2 (by norm_num)).1⟩, ?_⟩
  exact (flb_c2_header_roundtrip [9] [1, 2] 2 (by norm_num)).2.2.2.1 100
    exRec4Pairs [] (by decide) (by decide) (by decide)

/-- C6: `flb_mp_map_header_end` (resp. `flb_mp_array_header_end`) on a
header emitted by the corresponding init stores the final counter in the
widest-encoding form in place: the result is the buffer with only the five
header bytes at the recorded offset replaced — the length is unchanged (no
byte moves), every byte before the offset and every byte after the header
is untouched. -/
theorem flb_c6_header_end_in_place (buf payload : List Nat) (n : Nat) :
    flb_mp_map_header_end (mapHeaderAppendN n (flb_mp_map_header_init buf).1)
        ((flb_mp_map_header_init buf).2 ++ payload)
      = buf ++ 0xdf :: (be32 n ++ payload) ∧
    flb_mp_array_header_end
        (arrayHeaderAppendN n (flb_mp_array_header_init buf).1)
        ((flb_mp_array_header_init buf).2 ++ payload)
      = buf ++ 0xdd :: (be32 n ++ payload) ∧
    (buf ++ 0xdf :: (be32 n ++ payload)).length
      = ((flb_mp_map_header_init buf).2 ++ payload).length ∧
    (buf ++ 0xdd :: (be32 n ++ payload)).length
      = ((flb_mp_array_header_init buf).2 ++ payload).length ∧
    (∀ i, i < buf.length →
      (buf ++ 0xdf :: (be32 n ++ payload)).getD i 0
        = ((flb_mp_map_header_init buf).2 ++ payload).getD i 0) ∧
    (∀ i, i < buf.length →
      (buf ++ 0xdd :: (be32 n ++ payload)).getD i 0
        = ((flb_mp_array_header_init buf).2 ++ payload).getD i 0) ∧
    (∀ i, buf.length + 5 ≤ i →
      (buf ++ 0xdf :: (be32 n ++ payload)).getD i 0
        = ((flb_mp_map_header_init buf).2 ++ payload).getD i 0) ∧
    (∀ i, buf.length + 5 ≤ i →
      (buf ++ 0xdd :: (be32 n ++ payload)).getD i 0
        = ((flb_mp_array_header_init buf).2 ++ payload).getD i 0) := by
  have hmap : (flb_mp_map_header_init buf).2 ++ payload
      = buf ++ 0xdf :: (be32 65536 ++ payload) := by
    simp [flb_mp_map_header_init, packMapBytes_wide]
  have harr : (flb_mp_array_header_init buf).2 ++ payload
      = buf ++ 0xdd :: (be32 65536 ++ payload) := by
    simp [flb_mp_array_header_init, packArrayBytes_wide]
  refine ⟨map_end_appendN buf payload n, array_end_appendN buf payload n,
    ?_, ?_, ?_, ?_, ?_, ?_⟩
  · rw [hmap]; simp [be32_length]
  · rw [harr]; simp [be32_length]
  · intro i hi
    rw [hmap, List.getD_append _ _ _ _ hi, List.getD_append _ _ _ _ hi]
  · intro i hi
    rw [harr, List.getD_append _ _ _ _ hi, List.getD_append _ _ _ _ hi]
  · intro i hi
    rw [hmap, getD_skip_header buf 0xdf (be32 n) payload (be32_length n) i hi,
      getD_skip_header buf 0xdf (be32 65536) payload (be32_length 65536) i hi]
  · intro i hi
    rw [harr, getD_skip_header buf 0xdd (be32 n) payload (be32_length n) i hi,
      getD_skip_header buf 0xdd (be32 65536) payload (be32_length 65536) i hi]

/-- Witness for C6 at a concrete buffer, payload, and count, checking the
in-place equation and one preserved byte on each side of the header. -/
theorem flb_c6_header_end_in_place_witness :
    flb_mp_map_header_end (mapHeaderAppendN 3 (flb_mp_map_header_init [7, 8]).1)
        ((flb_mp_map_header_init [7, 8]).2 ++ [5, 6])
      = [7, 8] ++ 0xdf :: (be32 3 ++ [5, 6]) ∧
    ([7, 8] ++ 0xdf :: (be32 3 ++ [5, 6])).getD 1 0
      = ((flb_mp_map_header_init [7, 8]).2 ++ [5, 6]).getD 1 0 ∧
    ([7, 8] ++ 0xdf :: (be32 3 ++ [5, 6])).getD 8 0
      = ((flb_mp_map_header_init [7, 8]).2 ++ [5, 6]).getD 8 0 := by
  refine ⟨(flb_c6_header_end_in_place [7, 8] [5, 6] 3).1, ?_, ?_⟩
  · exact (flb_c6_header_end_in_place [7, 8] [5, 6] 3).2.2.2.2.1 1 (by norm_num)
  · exact (flb_c6_header_end_in_place [7, 8] [5, 6] 3).2.2.2.2.2.2.1 8
      (by norm_num)

/-- C7 counterexample: registering `2^32` entries between init and end does
not fail — the builder has no overflow check and no error value at all
(append returns the counter, end returns the patched buffer).  The header
it writes encodes 0, a wrong count: a decoder reads 0 pairs, not `2^32`. -/
theorem flb_c7_counterexample :
    (mapHeaderAppendN (2 ^ 32) (flb_mp_map_header_init []).1).entries
      = 2 ^ 32 ∧
    flb_mp_map_header_end (mapHeaderAppendN (2 ^ 32) (flb_mp_map_header_init []).1)
        (flb_mp_map_header_init []).2
      = [0xdf, 0, 0, 0, 0] ∧
    rdBE [0, 0, 0, 0] = 0 := by
  have h1 := mapHeaderAppendN_spec (2 ^ 32) (flb_mp_map_header_init []).1
  refine ⟨by rw [h1]; norm_num [flb_mp_map_header_init], ?_, by decide⟩
  rw [h1]
  have h2 := map_header_bracket [] [] (2 ^ 32)
  simp only [flb_mp_map_header_init, List.length_nil, List.append_nil,
    Nat.zero_add] at h2 ⊢
  rw [h2]
  norm_num [be32]

/-- C7 amended: the builder performs no overflow check and reports no
error; `flb_mp_map_header_end` (resp. the array variant) silently stores
the entry count reduced modulo `2^32`, so a count beyond the 32-bit space
produces a header encoding `N mod 2^32`. -/
theorem flb_c7_amended_count_mod (buf payload : List Nat) (N : Nat) :
    flb_mp_map_header_end (mapHeaderAppendN N (flb_mp_map_header_init buf).1)
        ((flb_mp_map_header_init buf).2 ++ payload)
      = buf ++ 0xdf :: (be32 (N % 2 ^ 32) ++ payload) ∧
    flb_mp_array_header_end
        (arrayHeaderAppendN N (flb_mp_array_header_init buf).1)
        ((flb_mp_array_header_init buf).2 ++ payload)
      = buf ++ 0xdd :: (be32 (N % 2 ^ 32) ++ payload) := by
  rw [be32_mod]
  exact ⟨map_end_appendN buf payload N, array_end_appendN buf payload N⟩

end FlbMp

namespace FlbOut

/-- C3: the 64-bit completion word `flb_output_return` writes to the
instance's event pipe carries the TASK event kind (2) in its high 32 bits,
and its low 32 bits pack the disposition in the top 2 bits, the task id in
the next 15 bits and the frame id in the low 15 bits — recoverable by the
mask-and-shift arithmetic the engine uses. -/
theorem flb_c3_completion_word (ret : Nat) (task : TaskInfo) (cid : Nat)
    (ms : Option Metrics)
    (hret : ret = FLB_OK ∨ ret = FLB_ERROR ∨ ret = FLB_RETRY)
    (htid : task.id < 2 ^ 15) (hcid : cid < 2 ^ 15) :
    (flb_output_return ret task cid ms).1 / 2 ^ 32 = FLB_ENGINE_TASK ∧
    (flb_output_return ret task cid ms).1 % 2 ^ 32 / 2 ^ 30 = ret ∧
    (flb_output_return ret task cid ms).1 / 2 ^ 15 % 2 ^ 15 = task.id ∧
    (flb_output_return ret task cid ms).1 % 2 ^ 15 = cid := by
  have hw : (flb_output_return ret task cid ms).1
      = FLB_ENGINE_TASK * 2 ^ 32
        + (ret * 2 ^ 30 + task.id * 2 ^ 15 + cid) % 2 ^ 32 % 2 ^ 32 := rfl
  rw [hw]
  simp only [FLB_OK, FLB_ERROR, FLB_RETRY, FLB_ENGINE_TASK] at hret ⊢
  rcases hret with h | h | h <;> subst h <;> omega

/-- Witness for C3 at the RETRY disposition, task id 5, frame id 7. -/
theorem flb_c3_completion_word_witness :
    ((flb_output_return FLB_RETRY ⟨5, 3, 120⟩ 7 none).1 / 2 ^ 32
        = FLB_ENGINE_TASK) ∧
    (flb_output_return FLB_RETRY ⟨5, 3, 120⟩ 7 none).1 % 2 ^ 32 / 2 ^ 30
        = FLB_RETRY ∧
    (flb_output_return FLB_RETRY ⟨5, 3, 120⟩ 7 none).1 / 2 ^ 15 % 2 ^ 15 = 5 ∧
    (flb_output_return FLB_RETRY ⟨5, 3, 120⟩ 7 none).1 % 2 ^ 15 = 7 :=
  flb_c3_completion_word FLB_RETRY ⟨5, 3, 120⟩ 7 none (by right; right; rfl)
    (by norm_num) (by norm_num)

/-- C4: on an instance with a metrics handle, an OK completion credits
`out_ok_records` by the task's record count and `out_ok_bytes` by its byte
size; an ERROR completion credits `out_errors` by exactly one; a RETRY
completion leaves every counter unchanged. -/
theorem flb_c4_metrics_update (task : TaskInfo) (cid : Nat) (ms : Metrics) :
    (flb_output_return FLB_OK task cid (some ms)).2
      = some ⟨ms.out_ok_records + task.records,
              ms.out_ok_bytes + task.size, ms.out_errors⟩ ∧
    (flb_output_return FLB_ERROR task cid (some ms)).2
      = some ⟨ms.out_ok_records, ms.out_ok_bytes, ms.out_errors + 1⟩ ∧
    (flb_output_return FLB_RETRY task cid (some ms)).2 = some ms := by
  refine ⟨?_, ?_, ?_⟩ <;>
    simp [flb_output_return, flb_metrics_sum, FLB_OK, FLB_ERROR, FLB_RETRY]

/-- C9: destroying one flush context decrements `task.users` by exactly one
and unlinks exactly that context from the task's context list and the
instance's active list, preserving every other node and their order — both
for `flb_output_coro_destroy_id` on a context found by id and for the
teardown callback `cb_output_coro_destroy`; and `flb_output_coro_destroy_id`
with an id held by no context returns `-1` and leaves the state untouched.
(Node identities are distinct, as C addresses are.) -/
theorem flb_c9_coro_destroy (st : CoroState) (id : Nat) (oc : OutputCoro) :
    (flb_output_coro_get id st.coros = some oc →
      (st.coros.map OutputCoro.nid).Nodup →
      oc.nid ∈ st.th_queue →
      ∃ c1 c2 q1 q2,
        st.coros = c1 ++ oc :: c2 ∧
        st.th_queue = q1 ++ oc.nid :: q2 ∧
        flb_output_coro_destroy_id id st
          = (0, { users := st.users - 1, coros := c1 ++ c2,
                  th_queue := q1 ++ q2 })) ∧
    (flb_output_coro_get id st.coros = none →
      flb_output_coro_destroy_id id st = (-1, st)) ∧
    (oc ∈ st.coros →
      (st.coros.map OutputCoro.nid).Nodup →
      oc.nid ∈ st.th_queue →
      ∃ c1 c2 q1 q2,
        st.coros = c1 ++ oc :: c2 ∧
        st.th_queue = q1 ++ oc.nid :: q2 ∧
        cb_output_coro_destroy oc st
          = { users := st.users - 1, coros := c1 ++ c2,
              th_queue := q1 ++ q2 }) := by
  have main : oc ∈ st.coros → (st.coros.map OutputCoro.nid).Nodup →
      oc.nid ∈ st.th_queue →
      ∃ c1 c2 q1 q2,
        st.coros = c1 ++ oc :: c2 ∧ st.th_queue = q1 ++ oc.nid :: q2 ∧
        st.coros.eraseP (fun c => c.nid == oc.nid) = c1 ++ c2 ∧
        st.th_queue.eraseP (fun n => n == oc.nid) = q1 ++ q2 := by
    intro hmem hnd hq
    obtain ⟨x, c1, c2, hc1, hx, hsplit, herase⟩ :=
      List.exists_of_eraseP (p := fun c => c.nid == oc.nid) hmem (by simp)
    obtain ⟨y, q1, q2, hq1, hy, hqsplit, hqerase⟩ :=
      List.exists_of_eraseP (p := fun n => n == oc.nid) hq (by simp)
    have hxnid : x.nid = oc.nid := by simpa using hx
    have hxmem : x ∈ st.coros := by rw [hsplit]; simp
    have hxoc : x = oc :=
      List.inj_on_of_nodup_map hnd hxmem hmem hxnid
    have hynid : y = oc.nid := by simpa using hy
    subst hxoc
    subst hynid
    exact ⟨c1, c2, q1, q2, hsplit, hqsplit, herase, hqerase⟩
  refine ⟨?_, ?_, ?_⟩
  · intro hget hnd hq
    have hmem : oc ∈ st.coros := List.mem_of_find?_eq_some hget
    obtain ⟨c1, c2, q1, q2, h1, h2, h3, h4⟩ := main hmem hnd hq
    exact ⟨c1, c2, q1, q2, h1, h2, by
      simp [flb_output_coro_destroy_id, hget, h3, h4]⟩
  · intro hget
    simp [flb_output_coro_destroy_id, hget]
  · intro hmem hnd hq
    obtain ⟨c1, c2, q1, q2, h1, h2, h3, h4⟩ := main hmem hnd hq
    exact ⟨c1, c2, q1, q2, h1, h2, by
      simp [cb_output_coro_destroy, h3, h4]⟩

/-- Witness for C9 on a two-context state: destroying id 2 removes exactly
that context from both lists and decrements `users`; destroying an absent id
9 returns `-1` unchanged; the teardown callback does the same unlink. -/
theorem flb_c9_coro_destroy_witness :
    (∃ c1 c2 q1 q2,
      ([⟨1, 10⟩, ⟨2, 20⟩] : List OutputCoro) = c1 ++ ⟨2, 20⟩ :: c2 ∧
      ([10, 20] : List Nat) = q1 ++ 20 :: q2 ∧
      flb_output_coro_destroy_id 2 ⟨5, [⟨1, 10⟩, ⟨2, 20⟩], [10, 20]⟩
        = (0, { users := 4, coros := c1 ++ c2, th_queue := q1 ++ q2 })) ∧
    flb_output_coro_destroy_id 9 ⟨5, [⟨1, 10⟩, ⟨2, 20⟩], [10, 20]⟩
      = (-1, ⟨5, [⟨1, 10⟩, ⟨2, 20⟩], [10, 20]⟩) ∧
    (∃ c1 c2 q1 q2,
      ([⟨1, 10⟩, ⟨2, 20⟩] : List OutputCoro) = c1 ++ ⟨2, 20⟩ :: c2 ∧
      ([10, 20] : List Nat) = q1 ++ 20 :: q2 ∧
      cb_output_coro_destroy ⟨2, 20⟩ ⟨5, [⟨1, 10⟩, ⟨2, 20⟩], [10, 20]⟩
        = { users := 4, coros := c1 ++ c2, th_queue := q1 ++ q2 }) := by
  refine ⟨?_, ?_, ?_⟩
  · exact (flb_c9_coro_destroy ⟨5, [⟨1, 10⟩, ⟨2, 20⟩], [10, 20]⟩ 2 ⟨2, 20⟩).1
      (by decide) (by decide) (by decide)
  · exact (flb_c9_coro_destroy ⟨5, [⟨1, 10⟩, ⟨2, 20⟩], [10, 20]⟩ 9 ⟨2, 20⟩).2.1
      (by decide)
  · exact (flb_c9_coro_destroy ⟨5, [⟨1, 10⟩, ⟨2, 20⟩], [10, 20]⟩ 2 ⟨2, 20⟩).2.2
      (by decide) (by decide) (by decide)

end FlbOut

namespace FlbMp

theorem buildMatches_none_count (pats : List RAPattern) (rec : MPObject)
    (h : ∀ pat ∈ pats, flb_ra_get_kv_pair pat rec = none) :
    (buildMatches pats rec).countP (fun m => m.matched) = 0 := by
  induction pats with
  | nil => simp [buildMatches]
  | cons p t ih =>
    have hp := h p (by simp)
    have ht := ih fun pat hm => h pat (by simp [hm])
    simp [buildMatches, List.countP_cons, hp, emptyMatch]
    simpa [buildMatches] using ht

theorem keys_remove_modified_shape (pats : List RAPattern) (ps : MPPairs)
    (h0 : ¬ ps.length = 0)
    (hm : ¬ (buildMatches pats (.map ps)).countP (fun m => m.matched) = 0) :
    flb_mp_accessor_keys_remove pats (.map ps)
      = (true, some (0xdf ::
          (be32 (topCB (buildMatches pats (.map ps)) 0 ps).1
            ++ (topCB (buildMatches pats (.map ps)) 0 ps).2))) := by
  have hloop := keys_remove_loop_shape (buildMatches pats (.map ps))
    (flb_mp_map_header_init []).2 (flb_mp_map_header_init []).1 0 ps
  have hend := map_header_bracket []
    (topCB (buildMatches pats (.map ps)) 0 ps).2
    (topCB (buildMatches pats (.map ps)) 0 ps).1
  simp only [flb_mp_map_header_init, List.length_nil,
    List.nil_append] at hloop hend
  simp [flb_mp_accessor_keys_remove, viaMapSize, h0, hm, viaMapPairs,
    flb_mp_map_header_init, hloop, hend]

/-- C1 counterexample: with the pattern set `{a.b, a.c}` and the record
`{a: {b: 1, c: 2}}`, both rules match (anchored at the same top-level key
`a`), the function reports Modified, but the returned buffer decodes to
`{a: {c: 2}}` — only the first matched rule anchored at `a` was applied —
and not to `{a: {}}`, the record with every matched innermost pair removed
that the claim demands. -/
theorem flb_c1_counterexample :
    (flb_ra_get_kv_pair exPatAB exRecShared).isSome = true ∧
    (flb_ra_get_kv_pair exPatAC exRecShared).isSome = true ∧
    flb_mp_accessor_keys_remove [exPatAB, exPatAC] exRecShared
      = (true, some exBufShared) ∧
    flb_mp_decode 30 exBufShared = some exSharedGot ∧
    exSharedGot ≠ exSharedAllRemoved := by
  refine ⟨by decide, by decide, by decide, by decide, by decide⟩

/-- C1 (amended): when `flb_mp_accessor_keys_remove` reports Modified on a
top-level map record, decoding the returned buffer yields the record with,
for each top-level key, only the first matched rule whose anchor is that
key applied: that rule's innermost matched key/value pair (or array
element) is removed — later matched rules sharing the anchor are ignored —
the entry disappearing entirely when the rule matched it directly;
insertion order of all unmatched siblings is preserved and every
reconstructed container header carries the count of entries actually
packed (the decode succeeds reading exactly the announced counts). -/
theorem flb_c1_amended_first_anchor_removal (pats : List RAPattern)
    (ps : MPPairs) (out : List Nat) (hsz : sized32 (.map ps) = true)
    (hrun : flb_mp_accessor_keys_remove pats (.map ps) = (true, some out))
    (fuel : Nat) (hfuel : costObj (.map ps) ≤ fuel) :
    flb_mp_decode fuel out
      = some (.map (topExpectedPairs (buildMatches pats (.map ps)) 0 ps)) := by
  have hps32 : ps.length < 2 ^ 32 ∧ sized32P ps = true := by
    simpa [sized32] using hsz
  by_cases h0 : ps.length = 0
  · have : flb_mp_accessor_keys_remove pats (.map ps) = (false, none) := by
      simp [flb_mp_accessor_keys_remove, viaMapSize, h0]
    rw [this] at hrun
    simp at hrun
  · by_cases hm : (buildMatches pats (.map ps)).countP
        (fun m => m.matched) = 0
    · have : flb_mp_accessor_keys_remove pats (.map ps) = (false, none) := by
        simp [flb_mp_accessor_keys_remove, viaMapSize, h0, hm]
      rw [this] at hrun
      simp at hrun
    · have hshape := keys_remove_modified_shape pats ps h0 hm
      rw [hshape] at hrun
      have hout : out = 0xdf ::
          (be32 (topCB (buildMatches pats (.map ps)) 0 ps).1
            ++ (topCB (buildMatches pats (.map ps)) 0 ps).2) := by
        simpa [eq_comm] using hrun
      obtain ⟨f, rfl⟩ : ∃ f, fuel = f + 1 :=
        ⟨fuel - 1, by have := costObj_pos (MPObject.map ps); omega⟩
      have hcp : costPairs ps ≤ f := by
        simp only [costObj] at hfuel; omega
      have hcnt32 : (topCB (buildMatches pats (.map ps)) 0 ps).1 < 2 ^ 32 :=
        lt_of_le_of_lt (topCB_count_le (buildMatches pats (.map ps)) 0 ps)
          hps32.1
      have hdp := top_decode f (buildMatches pats (.map ps)) 0 ps []
        hps32.2 hcp
      rw [List.append_nil] at hdp
      have hobj := decodeObj_map32 f (topCB (buildMatches pats (.map ps)) 0 ps).1
        (topCB (buildMatches pats (.map ps)) 0 ps).2 []
        (topExpectedPairs (buildMatches pats (.map ps)) 0 ps) hcnt32 hdp
      rw [hout]
      simp [flb_mp_decode, hobj]

/-- Witness for C1 (amended) on the spec's own end-to-end scenario 4:
removing `a.b.c` from `{a: {b: {c: 1, d: 2}, e: 3}, f: 4}` yields a buffer
that decodes to `{a: {b: {d: 2}, e: 3}, f: 4}`. -/
theorem flb_c1_amended_first_anchor_removal_witness :
    sized32 exRec4 = true ∧
    flb_mp_accessor_keys_remove [exPatABC] exRec4 = (true, some exBuf4) ∧
    flb_mp_decode 30 exBuf4 = some exRec4Removed := by
  refine ⟨by decide, by decide, ?_⟩
  have h := flb_c1_amended_first_anchor_removal [exPatABC] exRec4Pairs exBuf4
    (by decide) (by decide) 30 (by decide)
  exact h.trans (by decide)

/-- C5: when no accessor pattern matches the record,
`flb_mp_accessor_keys_remove` returns Unmodified (`FLB_FALSE`) and writes
nothing to the output parameters (no output buffer is composed or
allocated). -/
theorem flb_c5_unmatched_passthrough (pats : List RAPattern) (rec : MPObject)
    (h : ∀ pat ∈ pats, flb_ra_get_kv_pair pat rec = none) :
    flb_mp_accessor_keys_remove pats rec = (false, none) := by
  by_cases h0 : viaMapSize rec = 0
  · simp [flb_mp_accessor_keys_remove, h0]
  · simp [flb_mp_accessor_keys_remove, h0,
      buildMatches_none_count pats rec h]

/-- Witness for C5: the single pattern `x` does not match `{a: 1}`, and the
call passes the record through unmodified. -/
theorem flb_c5_unmatched_passthrough_witness :
    (∀ pat ∈ [exPatX], flb_ra_get_kv_pair pat exRecA1 = none) ∧
    flb_mp_accessor_keys_remove [exPatX] exRecA1 = (false, none) :=
  ⟨by decide, flb_c5_unmatched_passthrough [exPatX] exRecA1 (by decide)⟩

/-- C8 counterexample: for a top-level object that is not a map — an array,
whose overlaid `via.map.size` read is well defined by the C11
common-initial-sequence rule — `flb_mp_accessor_keys_remove` returns
Unmodified (`FLB_FALSE`), not a `BadRecord` error: the function has no type
check and no error return at all (its only outcomes are `FLB_FALSE` and
`FLB_TRUE`). -/
theorem flb_c8_counterexample :
    flb_mp_accessor_keys_remove [exPatAB] (.arr .nil) = (false, none) ∧
    flb_mp_accessor_keys_remove [exPatAB] (.arr (.cons (.uint 1) .nil))
      = (false, none) := by
  exact ⟨by decide, by decide⟩

/-- C8 (amended): `flb_mp_accessor_keys_remove` performs no top-level type
check and has no `BadRecord` error path; for any top-level array input it
returns Unmodified (`FLB_FALSE`) with the output parameters unwritten —
empty arrays exit on the size test, nonempty ones because no pattern
matches a non-map record.  (For scalar top-level objects the union read is
memory-layout dependent and is not modelled.) -/
theorem flb_c8_amended_nonmap_no_error (pats : List RAPattern) (es : MPList) :
    flb_mp_accessor_keys_remove pats (.arr es) = (false, none) := by
  by_cases h0 : viaMapSize (.arr es) = 0
  · simp [flb_mp_accessor_keys_remove, h0]
  · have h : ∀ pat ∈ pats, flb_ra_get_kv_pair pat (.arr es) = none :=
      fun pat _ => rfl
    simp [flb_mp_accessor_keys_remove, h0, buildMatches_none_count pats _ h]

/-- C10: on a top-level map with zero entries, `flb_mp_accessor_keys_remove`
returns Unmodified (`FLB_FALSE`) before evaluating any pattern — the result
is the same for every pattern list — and the output parameters stay
unwritten. -/
theorem flb_c10_empty_map_short_circuit (pats : List RAPattern) :
    flb_mp_accessor_keys_remove pats (.map .nil) = (false, none) := rfl

end FlbMp

